import Mathlib

/-!
# Stellarium `planet.cpp`: orbit cache, frame composition and trail buffer

A shallow embedding of the position-propagation core of `src/planet.cpp`
(`Planet::compute_position`, `Planet::get_heliocentric_ecliptic_pos`,
`Planet::update_trail`, `Planet::startTrail`, `Planet::set_rotation_elements`,
`Planet::compute_magnitude` and the constructor), followed by theorems about it.

Modelling conventions.

* `double` and `float` are exact rationals (`ℚ`); `fabs` is the absolute
  value.
* `int` is the 32-bit `int`.  The cast `(int)x` is truncation toward zero when
  the truncated value is representable; otherwise the conversion is undefined
  in C++ and the embedding takes what the x86 conversion instruction of an
  unoptimised build yields, `INT_MIN` (`toInt32`).  `abs` on `int` is the
  absolute value except that `abs(INT_MIN)` wraps to `INT_MIN` (`int_abs`).
  No other `int` operation of the embedded code can overflow.
* A `Planet` carries a snapshot of its ancestor chain in `parent`
  (`none` is the null pointer).  `exit(128)` is the result `none` of an
  `Option`-valued function.
* `coord_func(t, ecliptic_pos)` overwrites `ecliptic_pos` with a pure function
  of `t`.
* `compute_trans_matrix` only writes `axis_rotation`, `rot_local_to_parent`
  and `mat_local_to_parent`, which none of the embedded functions reads; these
  three members are not part of the state.
* `ORBIT_SEGMENTS`, `J2000` and `JD_SECOND` are defined in headers; they are
  parameters here.  So are the library functions `sqrt`, `acosf`, `log10f` and
  the constant `M_PI` (`FloatOps`), and the members `albedo` and `radius`.
* Division by zero is not modelled (`x / 0 = 0`); `DeltaTrail` is `1` in every
  constructed body and the orbit theorems assume `deltaSample > 0`.
-/

namespace Stellarium

/-- Three-component vector (`Vec3d`), exact arithmetic. -/
structure Vec3d where
  x : ℚ
  y : ℚ
  z : ℚ
deriving DecidableEq

/-- Componentwise sum, `Vec3d::operator+` and `operator+=`. -/
def Vec3d.add (a b : Vec3d) : Vec3d := ⟨a.x + b.x, a.y + b.y, a.z + b.z⟩

instance : Add Vec3d := ⟨Vec3d.add⟩

/-- The rotation record `RotationElements`. -/
structure RotationElements where
  period : ℚ
  offset : ℚ
  epoch : ℚ
  obliquity : ℚ
  ascendingNode : ℚ
  precessionRate : ℚ
  sidereal_period : ℚ

/-- One trail sample: a position and the date it was taken. -/
structure TrailPoint where
  point : Vec3d
  date : ℚ
deriving DecidableEq

/-- The part of `Navigator` read by `update_trail`: `get_JDay()` and
`helio_to_earth_pos_equ`. -/
structure Navigator where
  JDay : ℚ
  helio_to_earth_pos_equ : Vec3d → Vec3d

/-- The members of `Planet` read or written by the embedded functions.
`orbit` is the array `orbit[ORBIT_SEGMENTS]`, `trail` the `list<TrailPoint>`
with its front at the head. -/
structure Planet where
  ecliptic_pos : Vec3d
  lastJD : ℚ
  last_orbitJD : ℚ
  deltaJD : ℚ
  delta_orbitJD : ℚ
  orbit_cached : Bool
  orbit : ℕ → Vec3d
  re : RotationElements
  coord_func : ℚ → Vec3d
  trail : List TrailPoint
  trail_on : Bool
  DeltaTrail : ℚ
  MaxTrail : ℤ
  last_trailJD : ℚ
  first_point : Bool
  parent : Option Planet

/-- Truncation toward zero: the value of the C cast `(int)x` when it is
representable. -/
def toInt (x : ℚ) : ℤ := if 0 ≤ x then ⌊x⌋ else ⌈x⌉

/-- The C cast `(int)x` to the 32-bit `int`: truncation toward zero, and
`INT_MIN` when the truncated value is not representable. -/
def toInt32 (x : ℚ) : ℤ :=
  if -2 ^ 31 ≤ toInt x ∧ toInt x < 2 ^ 31 then toInt x else -2 ^ 31

/-- The C function `abs` on the 32-bit `int`: `abs(INT_MIN)` wraps to `INT_MIN`. -/
def int_abs (n : ℤ) : ℤ := if n = -2 ^ 31 then -2 ^ 31 else |n|

/-- The constructor `Planet::Planet`.  `sidereal_period`, `delta_orbitJD` and
the `orbit` array are left uninitialised by the source; their initial contents
are the arguments `sp0`, `dJD0` and `orbit0`. -/
def Planet.ctor (J2000 JD_SECOND : ℚ) (parent : Option Planet)
    (coord_func : ℚ → Vec3d) (sp0 dJD0 : ℚ) (orbit0 : ℕ → Vec3d) : Planet :=
  { ecliptic_pos := ⟨0, 0, 0⟩
    lastJD := J2000
    last_orbitJD := 0
    deltaJD := JD_SECOND
    delta_orbitJD := dJD0
    orbit_cached := false
    orbit := orbit0
    re := { period := 1, offset := 0, epoch := J2000, obliquity := 0,
            ascendingNode := 0, precessionRate := 0, sidereal_period := sp0 }
    coord_func := coord_func
    trail := []
    trail_on := false
    DeltaTrail := 1
    MaxTrail := 60
    last_trailJD := 0
    first_point := true
    parent := parent }

/-- The method `Planet::set_rotation_elements`. -/
def set_rotation_elements (ORBIT_SEGMENTS : ℕ) (s : Planet)
    (_period _offset _epoch _obliquity _ascendingNode _precessionRate _sidereal_period : ℚ) :
    Planet :=
  let re : RotationElements :=
    { period := _period, offset := _offset, epoch := _epoch, obliquity := _obliquity,
      ascendingNode := _ascendingNode, precessionRate := _precessionRate,
      sidereal_period := _sidereal_period }
  { s with re := re, delta_orbitJD := re.sidereal_period / ORBIT_SEGMENTS }

/-- The `while` loop of `get_heliocentric_ecliptic_pos`, entered with a
non-null `p`.  Returns the accumulated position and the number of executed
loop bodies, or `none` for `exit(128)`. -/
def helioLoop : Planet → Vec3d → ℕ → Option (Vec3d × ℕ)
  | { parent := none, .. }, pos, iters => some (pos, iters)
  | { parent := some q, ecliptic_pos := e, .. }, pos, iters =>
      -- pos += p->ecliptic_pos; p = p->parent;
      if q.parent.isSome then none
      else helioLoop q (pos + e) (iters + 1)
termination_by structural p => p

/-- The body of `get_heliocentric_ecliptic_pos` together with its loop-iteration count. -/
def helioRun (s : Planet) : Option (Vec3d × ℕ) :=
  match s.parent with
  | none => some (s.ecliptic_pos, 0)
  | some p => helioLoop p s.ecliptic_pos 0

/-- The method `Planet::get_heliocentric_ecliptic_pos`; `none` is `exit(128)`. -/
def get_heliocentric_ecliptic_pos (s : Planet) : Option Vec3d :=
  (helioRun s).map Prod.fst

/-- The three statements
`compute_trans_matrix(calc_date); coord_func(calc_date, ecliptic_pos);
orbit[d] = get_heliocentric_ecliptic_pos();`. -/
def orbit_sample (s : Planet) (calc_date : ℚ) (d : ℕ) : Option Planet :=
  let s1 := { s with ecliptic_pos := s.coord_func calc_date }
  (get_heliocentric_ecliptic_pos s1).map fun h =>
    { s1 with orbit := Function.update s1.orbit d h }

/-- A `for` loop over the slots `ds` (in that order) whose body may abort. -/
def forLoop (body : ℕ → Planet → Option Planet) : List ℕ → Planet → Option Planet
  | [], s => some s
  | d :: ds, s => (body d s).bind (forLoop body ds)

/-- The sample time `calc_date = base + (d-ORBIT_SEGMENTS/2)*date_increment`
(integer division). -/
def calc_date (ORBIT_SEGMENTS : ℕ) (base date_increment : ℚ) (d : ℕ) : ℚ :=
  base + (((d : ℤ) - (ORBIT_SEGMENTS : ℤ) / 2 : ℤ) : ℚ) * date_increment

/-- Body of the forward-shift loop (`delta_points > 0`). -/
def shift_forward_body (ORBIT_SEGMENTS : ℕ) (delta_points : ℤ) (new_date date_increment : ℚ)
    (d : ℕ) (s : Planet) : Option Planet :=
  if (d : ℤ) + delta_points ≥ ORBIT_SEGMENTS then
    orbit_sample s (calc_date ORBIT_SEGMENTS new_date date_increment d) d
  else
    some { s with orbit := Function.update s.orbit d (s.orbit ((d : ℤ) + delta_points).toNat) }

/-- Body of the backward-shift loop (`delta_points < 0`). -/
def shift_backward_body (ORBIT_SEGMENTS : ℕ) (delta_points : ℤ) (new_date date_increment : ℚ)
    (d : ℕ) (s : Planet) : Option Planet :=
  if (d : ℤ) + delta_points < 0 then
    orbit_sample s (calc_date ORBIT_SEGMENTS new_date date_increment d) d
  else
    some { s with orbit := Function.update s.orbit d (s.orbit ((d : ℤ) + delta_points).toNat) }

/-- Body of the full-recompute loop. -/
def recompute_body (ORBIT_SEGMENTS : ℕ) (date date_increment : ℚ)
    (d : ℕ) (s : Planet) : Option Planet :=
  orbit_sample s (calc_date ORBIT_SEGMENTS date date_increment d) d

/-- The rounding of the window shift, `delta_points`. -/
def delta_points (last_orbitJD date date_increment : ℚ) : ℤ :=
  if date > last_orbitJD then toInt32 (1 / 2 + (date - last_orbitJD) / date_increment)
  else toInt32 (-(1 / 2) + (date - last_orbitJD) / date_increment)

/-- The orbit-refresh test of `compute_position`. -/
def orbit_stale (s : Planet) (date : ℚ) : Prop :=
  0 < s.delta_orbitJD ∧ (|s.last_orbitJD - date| > s.delta_orbitJD ∨ s.orbit_cached = false)

instance (s : Planet) (date : ℚ) : Decidable (orbit_stale s date) := by
  unfold orbit_stale; infer_instance

/-- The orbit part of `compute_position`: the three branches on `delta_points`. -/
def refresh_orbit (ORBIT_SEGMENTS : ℕ) (s : Planet) (date : ℚ) : Option Planet :=
  let date_increment := s.re.sidereal_period / ORBIT_SEGMENTS
  let dp := delta_points s.last_orbitJD date date_increment
  let new_date := s.last_orbitJD + dp * date_increment
  if dp > 0 ∧ dp < ORBIT_SEGMENTS ∧ s.orbit_cached = true then
    (forLoop (shift_forward_body ORBIT_SEGMENTS dp new_date date_increment)
      (List.range ORBIT_SEGMENTS) s).map fun s1 => { s1 with last_orbitJD := new_date }
  else if dp < 0 ∧ int_abs dp < ORBIT_SEGMENTS ∧ s.orbit_cached = true then
    (forLoop (shift_backward_body ORBIT_SEGMENTS dp new_date date_increment)
      (List.range ORBIT_SEGMENTS).reverse s).map fun s1 => { s1 with last_orbitJD := new_date }
  else if dp ≠ 0 ∨ s.orbit_cached = false then
    (forLoop (recompute_body ORBIT_SEGMENTS date date_increment)
      (List.range ORBIT_SEGMENTS) s).map fun s1 =>
        { s1 with last_orbitJD := date, orbit_cached := true }
  else some s

/-- The method `Planet::compute_position`; `none` when a heliocentric query aborts. -/
def compute_position (ORBIT_SEGMENTS : ℕ) (s : Planet) (date : ℚ) : Option Planet :=
  if orbit_stale s date then
    (refresh_orbit ORBIT_SEGMENTS s date).map fun s1 =>
      { s1 with ecliptic_pos := s1.coord_func date, lastJD := date }
  else if |s.lastJD - date| > s.deltaJD then
    some { s with ecliptic_pos := s.coord_func date, lastJD := date }
  else some s

/-- The final scan of `update_trail`: the first point that is too old and
everything behind it is erased. -/
def trail_prune (date DeltaTrail : ℚ) (MaxTrail : ℤ) : List TrailPoint → List TrailPoint
  | [] => []
  | tp :: rest =>
    if |tp.date - date| / DeltaTrail > MaxTrail then []
    else tp :: trail_prune date DeltaTrail MaxTrail rest

/-- The method `Planet::update_trail`; `none` when the heliocentric query aborts. -/
def update_trail (s : Planet) (nav : Navigator) : Option Planet :=
  if s.trail_on = false then some s
  else
    let date := nav.JDay
    let dt0 : ℤ :=
      if s.first_point = true then 0
      else int_abs (toInt32 ((date - s.last_trailJD) / s.DeltaTrail))
    let reset : Bool := s.first_point || decide (dt0 > s.MaxTrail)
    let s1 := if reset then { s with trail := [], first_point := false } else s
    let dt : ℤ := if reset then 1 else dt0
    let pushed : Option Planet :=
      if dt ≠ 0 then
        (get_heliocentric_ecliptic_pos s1).map fun v =>
          let tp : TrailPoint := { point := nav.helio_to_earth_pos_equ v, date := date }
          let tr := tp :: s1.trail
          { s1 with
            last_trailJD := date
            trail := if (tr.length : ℤ) > s1.MaxTrail % 2 ^ 32 then tr.dropLast else tr }
      else some s1
    pushed.map fun s2 =>
      { s2 with trail := trail_prune date s2.DeltaTrail s2.MaxTrail s2.trail }

/-- The method `Planet::startTrail`. -/
def startTrail (s : Planet) (b : Bool) : Planet :=
  if b then
    let s1 := { s with first_point := true }
    if s1.re.sidereal_period > 0 then { s1 with trail_on := true } else s1
  else { s with trail_on := false }

/-- Closed form of the heliocentric position of a body with local position
`pos`: the parent's local position is added exactly when the parent itself has
a parent. -/
def helioOf (parent : Option Planet) (pos : Vec3d) : Vec3d :=
  match parent with
  | none => pos
  | some p =>
    match p.parent with
    | none => pos
    | some _ => pos + p.ecliptic_pos

/-- The heliocentric position stored in an orbit slot sampled at time `t`. -/
def helio_sample (s : Planet) (t : ℚ) : Vec3d := helioOf s.parent (s.coord_func t)

/-- The shift `delta_points` that `compute_position` computes in state `s`. -/
def shift_of (N : ℕ) (s : Planet) (date : ℚ) : ℤ :=
  delta_points s.last_orbitJD date (s.re.sidereal_period / N)

/-- The populated window is shifted: `delta_points` is non-zero and
`abs(delta_points) < ORBIT_SEGMENTS`, the union of the guards of the two shift
branches. -/
def shiftable (N : ℕ) (s : Planet) (date : ℚ) : Prop :=
  s.orbit_cached = true ∧ shift_of N s date ≠ 0 ∧ int_abs (shift_of N s date) < N

/-- The exact rounding of the window shift: what `delta_points` computes when
the cast does not overflow. -/
def delta_points_exact (last_orbitJD date date_increment : ℚ) : ℤ :=
  if date > last_orbitJD then toInt (1 / 2 + (date - last_orbitJD) / date_increment)
  else toInt (-(1 / 2) + (date - last_orbitJD) / date_increment)

/-- The shift stays inside the range of `int`:
`|date - last_orbitJD| < (2^31 - 1/2) * date_increment`. -/
def shift_in_range (last_orbitJD date date_increment : ℚ) : Prop :=
  |date - last_orbitJD| < (2 ^ 31 - 1 / 2) * date_increment

/-- The shift that `compute_position` computes in state `s` stays inside the
range of `int`. -/
def cast_ok (N : ℕ) (s : Planet) (date : ℚ) : Prop :=
  shift_in_range s.last_orbitJD date (s.re.sidereal_period / N)

instance (N : ℕ) (s : Planet) (date : ℚ) : Decidable (cast_ok N s date) := by
  unfold cast_ok shift_in_range; infer_instance

instance (N : ℕ) (s : Planet) (date : ℚ) : Decidable (shiftable N s date) := by
  unfold shiftable; infer_instance

/-- Closed form of `last_orbitJD` after a refresh: `new_date` when the window
is shifted, `date` when it is recomputed. -/
def anchor_after (N : ℕ) (s : Planet) (date : ℚ) : ℚ :=
  if shiftable N s date then
    s.last_orbitJD + (shift_of N s date : ℚ) * (s.re.sidereal_period / N)
  else date

/-- Closed form of the orbit array after a refresh: inside the window a slot
is a copy of the old slot `j + delta_points` when the window is shifted and
that slot exists, and a fresh sample otherwise. -/
def orbit_after (N : ℕ) (s : Planet) (date : ℚ) : ℕ → Vec3d := fun j =>
  if j < N then
    if shiftable N s date ∧ 0 ≤ (j : ℤ) + shift_of N s date ∧ (j : ℤ) + shift_of N s date < N then
      s.orbit ((j : ℤ) + shift_of N s date).toNat
    else
      helio_sample s (calc_date N (anchor_after N s date) (s.re.sidereal_period / N) j)
  else s.orbit j

/-- The orbit-window predicate: a populated cache holds, in slot `i`, the
position function sampled at `last_orbitJD + (i - N/2) * deltaSample`. -/
def OrbitWindowInv (N : ℕ) (s : Planet) : Prop :=
  s.orbit_cached = true →
    ∀ i, i < N → s.orbit i = s.coord_func (calc_date N s.last_orbitJD (s.re.sidereal_period / N) i)

/-- Feeding the times `ts`, in order, to `compute_position`. -/
def feed (N : ℕ) : List ℚ → Planet → Option Planet
  | [], s => some s
  | t :: ts, s => (compute_position N s t).bind (feed N ts)

/-- A position function used in the worked examples: uniform motion along `x`. -/
def demo_coord : ℚ → Vec3d := fun t => ⟨t, 0, 0⟩

/-- A freshly constructed root body with `ORBIT_SEGMENTS = 4` and sidereal
period `4`, so that `deltaSample = 1`. -/
def demo_new : Planet :=
  set_rotation_elements 4
    (Planet.ctor 2451545 (1 / 86400) none demo_coord 0 0 (fun _ => ⟨0, 0, 0⟩))
    1 0 2451545 0 0 0 4

/-- A populated variant of `demo_new`: the orbit window is centred on `0` and
holds the samples a full recompute at date `0` writes. -/
def demo_cached : Planet :=
  { demo_new with
    orbit_cached := true
    last_orbitJD := 0
    lastJD := 0
    ecliptic_pos := demo_coord 0
    orbit := fun i => if i < 4 then demo_coord (calc_date 4 0 1 i) else ⟨0, 0, 0⟩ }

/-- A constructed body placed at `pos` (as `coord_func` may place it) under `parent`. -/
def demo_body (pos : Vec3d) (parent : Option Planet) : Planet :=
  { Planet.ctor 2451545 (1 / 86400) parent demo_coord 0 0 (fun _ => ⟨0, 0, 0⟩) with
    ecliptic_pos := pos }

/-- A root body at `(1, 0, 0)`. -/
def demo_root : Planet := demo_body ⟨1, 0, 0⟩ none

/-- A child of `demo_root` at `(0, 1, 0)`. -/
def demo_child : Planet := demo_body ⟨0, 1, 0⟩ (some demo_root)

/-- A child of `demo_child` at `(0, 0, 1)`: its parent's parent is the root. -/
def demo_grandchild : Planet := demo_body ⟨0, 0, 1⟩ (some demo_child)

/-- A child of `demo_grandchild`: a body with a great-grandparent. -/
def demo_great : Planet := demo_body ⟨1, 1, 1⟩ (some demo_grandchild)

/-- States reachable from construction by calls of `set_rotation_elements`,
`compute_position`, `startTrail` and `update_trail` that return, interleaved
with updates of the ancestors (which replace the snapshot held in `parent`). -/
inductive Reachable (N : ℕ) (J2000 JD_SECOND : ℚ) : Planet → Prop
  | ctor (parent : Option Planet) (coord_func : ℚ → Vec3d) (sp0 dJD0 : ℚ)
      (orbit0 : ℕ → Vec3d) :
      Reachable N J2000 JD_SECOND (Planet.ctor J2000 JD_SECOND parent coord_func sp0 dJD0 orbit0)
  | set_rotation_elements (s : Planet) (a b c d e f g : ℚ) :
      Reachable N J2000 JD_SECOND s →
      Reachable N J2000 JD_SECOND (set_rotation_elements N s a b c d e f g)
  | compute_position (s s1 : Planet) (date : ℚ) :
      Reachable N J2000 JD_SECOND s → compute_position N s date = some s1 →
      Reachable N J2000 JD_SECOND s1
  | startTrail (s : Planet) (b : Bool) :
      Reachable N J2000 JD_SECOND s → Reachable N J2000 JD_SECOND (startTrail s b)
  | update_trail (s s1 : Planet) (nav : Navigator) :
      Reachable N J2000 JD_SECOND s → update_trail s nav = some s1 →
      Reachable N J2000 JD_SECOND s1
  | ancestors (s p0 p : Planet) :
      Reachable N J2000 JD_SECOND s → s.parent = some p0 →
      Reachable N J2000 JD_SECOND { s with parent := some p }

/-- A navigator at Julian day `10` with the identity frame conversion. -/
def demo_nav : Navigator := { JDay := 10, helio_to_earth_pos_equ := fun v => v }

/-- The body `demo_new` after `startTrail(true)` and one `update_trail`. -/
def demo_trailed : Planet :=
  (update_trail (startTrail demo_new true) demo_nav).getD demo_new

/-- The body has no great-grandparent. -/
def Planet.wellNested (s : Planet) : Prop :=
  ∀ p q, s.parent = some p → p.parent = some q → q.parent = none

/-- The parent is absent or is the root. -/
def Planet.helioLocal (s : Planet) : Prop :=
  ∀ p, s.parent = some p → p.parent = none

/-- The exact number of whole ticks between `last_trailJD` and the date of
`nav`: what `abs(int((date-last_trailJD)/DeltaTrail))` yields when neither the
cast nor `abs` overflows. -/
def trail_ticks (s : Planet) (nav : Navigator) : ℤ :=
  |toInt ((nav.JDay - s.last_trailJD) / s.DeltaTrail)|

/-- The tick count `abs(int((date-last_trailJD)/DeltaTrail))` as `update_trail`
computes it. -/
def trail_dt (s : Planet) (nav : Navigator) : ℤ :=
  int_abs (toInt32 ((nav.JDay - s.last_trailJD) / s.DeltaTrail))

/-- The call `update_trail(nav)` would push, on a running trail, a point dated
earlier than the last recorded one: time has stepped back by at least one and
at most `MaxTrail` ticks. -/
def backward_push (s : Planet) (nav : Navigator) : Prop :=
  s.trail_on = true ∧ s.first_point = false ∧ nav.JDay < s.last_trailJD ∧
    trail_ticks s nav ≠ 0 ∧ trail_ticks s nav ≤ s.MaxTrail

instance (s : Planet) (nav : Navigator) : Decidable (backward_push s nav) := by
  unfold backward_push; infer_instance

/-- The trail is time-ordered most-recent-first: dates do not increase from
front to back. -/
def TrailOrdered (s : Planet) : Prop :=
  s.trail.Pairwise (fun a b => b.date ≤ a.date)

instance (s : Planet) : Decidable (TrailOrdered s) := by
  unfold TrailOrdered; infer_instance

/-- The facts about the trail that hold in every state reachable without a
`backward_push`: it is time-ordered, no point is dated after `last_trailJD` or
more than `MaxTrail` ticks away from it, and `DeltaTrail` and `MaxTrail` keep
their constructed values. -/
def TrailInv (s : Planet) : Prop :=
  TrailOrdered s ∧ (∀ tp, tp ∈ s.trail → tp.date ≤ s.last_trailJD) ∧
    (∀ tp, tp ∈ s.trail → |tp.date - s.last_trailJD| ≤ 60) ∧
    s.DeltaTrail = 1 ∧ s.MaxTrail = 60

/-- The states of `Reachable` in which no `update_trail` call was a
`backward_push`. -/
inductive ReachableOrdered (N : ℕ) (J2000 JD_SECOND : ℚ) : Planet → Prop
  | ctor (parent : Option Planet) (coord_func : ℚ → Vec3d) (sp0 dJD0 : ℚ)
      (orbit0 : ℕ → Vec3d) :
      ReachableOrdered N J2000 JD_SECOND
        (Planet.ctor J2000 JD_SECOND parent coord_func sp0 dJD0 orbit0)
  | set_rotation_elements (s : Planet) (a b c d e f g : ℚ) :
      ReachableOrdered N J2000 JD_SECOND s →
      ReachableOrdered N J2000 JD_SECOND (set_rotation_elements N s a b c d e f g)
  | compute_position (s s1 : Planet) (date : ℚ) :
      ReachableOrdered N J2000 JD_SECOND s → compute_position N s date = some s1 →
      ReachableOrdered N J2000 JD_SECOND s1
  | startTrail (s : Planet) (b : Bool) :
      ReachableOrdered N J2000 JD_SECOND s →
      ReachableOrdered N J2000 JD_SECOND (startTrail s b)
  | update_trail (s s1 : Planet) (nav : Navigator) :
      ReachableOrdered N J2000 JD_SECOND s → ¬ backward_push s nav →
      update_trail s nav = some s1 → ReachableOrdered N J2000 JD_SECOND s1
  | ancestors (s p0 p : Planet) :
      ReachableOrdered N J2000 JD_SECOND s → s.parent = some p0 →
      ReachableOrdered N J2000 JD_SECOND { s with parent := some p }

/-- A navigator at Julian day `8`, two days before `demo_nav`. -/
def demo_nav_back : Navigator := { JDay := 8, helio_to_earth_pos_equ := fun v => v }

/-- A navigator at Julian day `12`, two days after `demo_nav`. -/
def demo_nav_on : Navigator := { JDay := 12, helio_to_earth_pos_equ := fun v => v }

/-- The body `demo_trailed` after a further `update_trail` two days earlier. -/
def demo_backtracked : Planet := (update_trail demo_trailed demo_nav_back).getD demo_new

/-- The body `demo_trailed` after a further `update_trail` two days later. -/
def demo_advanced : Planet := (update_trail demo_trailed demo_nav_on).getD demo_new

/-- Componentwise difference, `Vec3d::operator-`. -/
def Vec3d.sub (a b : Vec3d) : Vec3d := ⟨a.x - b.x, a.y - b.y, a.z - b.z⟩

instance : Sub Vec3d := ⟨Vec3d.sub⟩

/-- The C library functions used by `compute_magnitude` (`sqrt`, `acosf`,
`log10f`) and the constant `M_PI`; they are not rational functions and are
parameters of the embedding. -/
structure FloatOps where
  sqrt : ℚ → ℚ
  acosf : ℚ → ℚ
  log10f : ℚ → ℚ
  M_PI : ℚ

/-- The Euclidean norm `Vec3d::length()`, the square root of the sum of squares. -/
def Vec3d.length (m : FloatOps) (v : Vec3d) : ℚ := m.sqrt (v.x * v.x + v.y * v.y + v.z * v.z)

/-- The body of `Planet::compute_magnitude(Vec3d obs_pos)` after the heliocentric
query: the value returned and whether the photometric formula (its divisions,
`acosf` and `log10f`) was evaluated.  The members `albedo` and `radius` are
arguments. -/
def magnitude_of (m : FloatOps) (albedo radius : ℚ) (heliopos obs_pos : Vec3d) : ℚ × Bool :=
  let R := heliopos.length m
  -- Fix bug for sun
  if R < 1 / 10 ^ 16 then (-(2673 / 100), false)
  else
    let p := (obs_pos - heliopos).length m
    let s := obs_pos.length m
    let cos_chi := (p * p + R * R - s * s) / (2 * p * R)
    let phase := (1 - m.acosf cos_chi / m.M_PI) * cos_chi
      + m.sqrt (1 - cos_chi * cos_chi) / m.M_PI
    let F := 666666667 / 1000000000 * albedo * (radius * s / (R * p)) * (radius * s / (R * p))
      * phase
    (-(2673 / 100) - 5 / 2 * m.log10f F, true)

/-- The method `Planet::compute_magnitude(Vec3d obs_pos)` with its evaluation
flag; `none` when the heliocentric query aborts. -/
def magnitude_run (m : FloatOps) (albedo radius : ℚ) (s : Planet) (obs_pos : Vec3d) :
    Option (ℚ × Bool) :=
  (get_heliocentric_ecliptic_pos s).map fun heliopos =>
    magnitude_of m albedo radius heliopos obs_pos

/-- The method `Planet::compute_magnitude(Vec3d obs_pos)`. -/
def compute_magnitude (m : FloatOps) (albedo radius : ℚ) (s : Planet) (obs_pos : Vec3d) :
    Option ℚ :=
  (magnitude_run m albedo radius s obs_pos).map Prod.fst

/-- A stand-in library for the worked examples: integer square root of the
numerator over the denominator, constant `acosf` and `log10f`. -/
def demo_ops : FloatOps :=
  { sqrt := fun x => (Nat.sqrt (x.num.toNat * x.den) : ℚ) / x.den
    acosf := fun _ => 0
    log10f := fun _ => 0
    M_PI := 355 / 113 }

/-- Rounding to the nearest integer with ties away from zero, as worded in the
specification of the window shift. -/
def round_half_away (x : ℚ) : ℤ := if 0 ≤ x then ⌊x + 1 / 2⌋ else ⌈x - 1 / 2⌉

/-! ## Heliocentric position -/

theorem helioLoop_parent_none (p : Planet) (pos : Vec3d) (n : ℕ) (h : p.parent = none) :
    helioLoop p pos n = some (pos, n) := by
  obtain ⟨_, _, _, _, _, _, _, _, _, _, _, _, _, _, _, par⟩ := p
  cases par with
  | none => simp [helioLoop]
  | some q => simp at h

theorem helioLoop_parent_some (p q : Planet) (pos : Vec3d) (n : ℕ) (h : p.parent = some q) :
    helioLoop p pos n =
      if q.parent.isSome then none else helioLoop q (pos + p.ecliptic_pos) (n + 1) := by
  obtain ⟨_, _, _, _, _, _, _, _, _, _, _, _, _, _, _, par⟩ := p
  cases par with
  | none => simp at h
  | some q0 =>
    simp only [Option.some.injEq] at h
    subst h
    simp [helioLoop]

theorem helioRun_of_wellNested (s : Planet) (h : s.wellNested) :
    ∃ n, n ≤ 1 ∧ helioRun s = some (helioOf s.parent s.ecliptic_pos, n) := by
  unfold helioRun helioOf
  cases hp : s.parent with
  | none => exact ⟨0, by omega, rfl⟩
  | some p =>
    cases hq : p.parent with
    | none => exact ⟨0, by omega, by simp [helioLoop_parent_none p _ _ hq, hq]⟩
    | some q =>
      have hr : q.parent = none := h p q hp hq
      refine ⟨1, le_refl 1, ?_⟩
      simp [helioLoop_parent_some p q _ _ hq, hr, helioLoop_parent_none q _ _ hr, hq]

theorem helioRun_eq_none_iff (s : Planet) : helioRun s = none ↔ ¬ s.wellNested := by
  constructor
  · intro h hw
    obtain ⟨n, _, hn⟩ := helioRun_of_wellNested s hw
    rw [hn] at h
    exact absurd h (by simp)
  · intro h
    unfold Planet.wellNested at h
    push_neg at h
    obtain ⟨p, q, hp, hq, hr⟩ := h
    unfold helioRun
    rw [hp]
    simp only
    rw [helioLoop_parent_some p q _ _ hq]
    cases hr2 : q.parent with
    | none => exact absurd hr2 hr
    | some r => simp

theorem helio_of_wellNested (s : Planet) (h : s.wellNested) :
    get_heliocentric_ecliptic_pos s = some (helioOf s.parent s.ecliptic_pos) := by
  obtain ⟨n, _, hn⟩ := helioRun_of_wellNested s h
  simp [get_heliocentric_ecliptic_pos, hn]

theorem helioLocal_wellNested (s : Planet) (h : s.helioLocal) : s.wellNested := by
  intro p q hp hq
  have := h p hp
  rw [this] at hq
  exact absurd hq (by simp)

theorem helioOf_of_helioLocal (s : Planet) (h : s.helioLocal) (pos : Vec3d) :
    helioOf s.parent pos = pos := by
  unfold helioOf
  cases hp : s.parent with
  | none => rfl
  | some p => simp [h p hp]

/-! ## The slot loops of `compute_position` -/

theorem planet_eta (s : Planet) :
    ({ s with ecliptic_pos := s.ecliptic_pos, orbit := s.orbit } : Planet) = s := by
  cases s; rfl

theorem orbit_sample_eq (s : Planet) (hw : s.wellNested) (e : Vec3d) (o : ℕ → Vec3d)
    (t : ℚ) (d : ℕ) :
    orbit_sample { s with ecliptic_pos := e, orbit := o } t d =
      some { s with ecliptic_pos := s.coord_func t,
                    orbit := Function.update o d (helioOf s.parent (s.coord_func t)) } := by
  have h := helio_of_wellNested
    { s with ecliptic_pos := s.coord_func t, orbit := o } hw
  simp only [orbit_sample, h, Option.map_some']

/-- A loop whose body writes slot `d` with either a fixed fresh value `F d` or
a copy of slot `src d`, run over slots ordered so that no copy reads a slot
already written, has the effect of one simultaneous assignment. -/
theorem forLoop_slots (s : Planet) (body : ℕ → Planet → Option Planet)
    (fresh : ℕ → Prop) [DecidablePred fresh] (F : ℕ → Vec3d) (src : ℕ → ℕ)
    (hbody : ∀ d e o, ∃ e1, body d { s with ecliptic_pos := e, orbit := o } =
      some { s with ecliptic_pos := e1,
                    orbit := Function.update o d (if fresh d then F d else o (src d)) })
    (ds : List ℕ) (hp : ds.Pairwise (fun d j => d ≠ j ∧ (¬ fresh j → src j ≠ d))) :
    ∀ e o, ∃ e1, forLoop body ds { s with ecliptic_pos := e, orbit := o } =
      some { s with ecliptic_pos := e1,
                    orbit := fun j => if j ∈ ds then (if fresh j then F j else o (src j))
                                      else o j } := by
  induction ds with
  | nil => intro e o; exact ⟨e, by simp [forLoop]⟩
  | cons d rest ih =>
    intro e o
    rw [List.pairwise_cons] at hp
    obtain ⟨e1, h1⟩ := hbody d e o
    obtain ⟨e2, h2⟩ := ih hp.2 e1 (Function.update o d (if fresh d then F d else o (src d)))
    refine ⟨e2, ?_⟩
    simp only [forLoop, h1, Option.some_bind, h2]
    congr 2
    funext j
    by_cases hjd : j = d
    · subst hjd
      have hnot : j ∉ rest := fun hm => (hp.1 j hm).1 rfl
      simp [hnot]
    · by_cases hjr : j ∈ rest
      · have hsrc := (hp.1 j hjr).2
        by_cases hf : fresh j
        · simp [hjr, hf]
        · simp [hjr, hf, Function.update_noteq (hsrc hf)]
      · simp [hjr, hjd, Function.update_noteq hjd]

theorem forward_loop (N : ℕ) (s : Planet) (hw : s.wellNested) (dp : ℤ) (hdp : 0 < dp)
    (nd inc : ℚ) :
    ∃ e1, forLoop (shift_forward_body N dp nd inc) (List.range N) s =
      some { s with
        ecliptic_pos := e1
        orbit := fun j =>
          if j < N then
            (if (j : ℤ) + dp ≥ N then helio_sample s (calc_date N nd inc j)
             else s.orbit ((j : ℤ) + dp).toNat)
          else s.orbit j } := by
  have hbody : ∀ d e o, ∃ e1,
      shift_forward_body N dp nd inc d { s with ecliptic_pos := e, orbit := o } =
      some { s with ecliptic_pos := e1,
                    orbit := Function.update o d
                      (if (d : ℤ) + dp ≥ N then helio_sample s (calc_date N nd inc d)
                       else o ((d : ℤ) + dp).toNat) } := by
    intro d e o
    unfold shift_forward_body
    by_cases hf : (d : ℤ) + dp ≥ N
    · exact ⟨s.coord_func (calc_date N nd inc d),
        by simp only [hf, if_true, orbit_sample_eq s hw, helio_sample]⟩
    · exact ⟨e, by simp only [hf, if_false]⟩
  have hp : (List.range N).Pairwise
      (fun (d j : ℕ) => d ≠ j ∧ (¬ ((j : ℤ) + dp ≥ N) → ((j : ℤ) + dp).toNat ≠ d)) := by
    refine (List.pairwise_lt_range N).imp ?_
    intro d j hlt
    exact ⟨by omega, fun _ => by omega⟩
  obtain ⟨e1, h1⟩ := forLoop_slots s _ (fun d => (d : ℤ) + dp ≥ N)
    (fun d => helio_sample s (calc_date N nd inc d)) (fun d => ((d : ℤ) + dp).toNat)
    hbody (List.range N) hp s.ecliptic_pos s.orbit
  refine ⟨e1, ?_⟩
  simp only [List.mem_range] at h1
  rw [planet_eta s] at h1
  exact h1

theorem backward_loop (N : ℕ) (s : Planet) (hw : s.wellNested) (dp : ℤ) (hdp : dp < 0)
    (nd inc : ℚ) :
    ∃ e1, forLoop (shift_backward_body N dp nd inc) (List.range N).reverse s =
      some { s with
        ecliptic_pos := e1
        orbit := fun j =>
          if j < N then
            (if (j : ℤ) + dp < 0 then helio_sample s (calc_date N nd inc j)
             else s.orbit ((j : ℤ) + dp).toNat)
          else s.orbit j } := by
  have hbody : ∀ d e o, ∃ e1,
      shift_backward_body N dp nd inc d { s with ecliptic_pos := e, orbit := o } =
      some { s with ecliptic_pos := e1,
                    orbit := Function.update o d
                      (if (d : ℤ) + dp < 0 then helio_sample s (calc_date N nd inc d)
                       else o ((d : ℤ) + dp).toNat) } := by
    intro d e o
    unfold shift_backward_body
    by_cases hf : (d : ℤ) + dp < 0
    · exact ⟨s.coord_func (calc_date N nd inc d),
        by simp only [hf, if_true, orbit_sample_eq s hw, helio_sample]⟩
    · exact ⟨e, by simp only [hf, if_false]⟩
  have hp : (List.range N).reverse.Pairwise
      (fun (d j : ℕ) => d ≠ j ∧ (¬ ((j : ℤ) + dp < 0) → ((j : ℤ) + dp).toNat ≠ d)) := by
    rw [List.pairwise_reverse]
    refine (List.pairwise_lt_range N).imp ?_
    intro j d hlt
    exact ⟨by omega, fun _ => by omega⟩
  obtain ⟨e1, h1⟩ := forLoop_slots s _ (fun d => (d : ℤ) + dp < 0)
    (fun d => helio_sample s (calc_date N nd inc d)) (fun d => ((d : ℤ) + dp).toNat)
    hbody (List.range N).reverse hp s.ecliptic_pos s.orbit
  refine ⟨e1, ?_⟩
  simp only [List.mem_reverse, List.mem_range] at h1
  rw [planet_eta s] at h1
  exact h1

theorem recompute_loop (N : ℕ) (s : Planet) (hw : s.wellNested) (date inc : ℚ) :
    ∃ e1, forLoop (recompute_body N date inc) (List.range N) s =
      some { s with
        ecliptic_pos := e1
        orbit := fun j =>
          if j < N then helio_sample s (calc_date N date inc j) else s.orbit j } := by
  have hbody : ∀ d e o, ∃ e1,
      recompute_body N date inc d { s with ecliptic_pos := e, orbit := o } =
      some { s with ecliptic_pos := e1,
                    orbit := Function.update o d
                      (if True then helio_sample s (calc_date N date inc d) else o d) } := by
    intro d e o
    unfold recompute_body
    exact ⟨s.coord_func (calc_date N date inc d),
      by simp only [if_true, orbit_sample_eq s hw, helio_sample]⟩
  have hp : (List.range N).Pairwise (fun d j => d ≠ j ∧ (¬ True → j ≠ d)) := by
    refine (List.pairwise_lt_range N).imp ?_
    intro d j hlt
    exact ⟨by omega, fun h => absurd trivial h⟩
  obtain ⟨e1, h1⟩ := forLoop_slots s _ (fun _ => True)
    (fun d => helio_sample s (calc_date N date inc d)) (fun d => d)
    hbody (List.range N) hp s.ecliptic_pos s.orbit
  refine ⟨e1, ?_⟩
  simp only [List.mem_range, if_true] at h1
  rw [planet_eta s] at h1
  exact h1

/-! ## Closed form of the orbit refresh -/

theorem int_abs_of_pos (n : ℤ) (h : 0 < n) : int_abs n = n := by
  unfold int_abs
  rw [if_neg (by intro h2; rw [h2] at h; norm_num at h), abs_of_pos h]

theorem int_abs_of_gt (n : ℤ) (h : -2 ^ 31 < n) : int_abs n = |n| := by
  unfold int_abs
  rw [if_neg (ne_of_gt h)]

theorem refresh_orbit_spec (N : ℕ) (s : Planet) (date : ℚ) (hw : s.wellNested)
    (hne : s.orbit_cached = true → shift_of N s date ≠ 0) :
    ∃ e1, refresh_orbit N s date =
      some { s with ecliptic_pos := e1, orbit := orbit_after N s date,
                    last_orbitJD := anchor_after N s date, orbit_cached := true } := by
  unfold refresh_orbit
  simp only
  have hdpdef : delta_points s.last_orbitJD date (s.re.sidereal_period / N) = shift_of N s date :=
    rfl
  rw [hdpdef]
  generalize hdp : shift_of N s date = dp at hne
  by_cases h1 : dp > 0 ∧ dp < N ∧ s.orbit_cached = true
  · obtain ⟨e1, hl⟩ := forward_loop N s hw dp h1.1
      (s.last_orbitJD + dp * (s.re.sidereal_period / N)) (s.re.sidereal_period / N)
    have hsh : shiftable N s date := by
      refine ⟨h1.2.2, by rw [hdp]; omega, ?_⟩
      rw [hdp, int_abs_of_pos dp h1.1]; exact h1.2.1
    refine ⟨e1, ?_⟩
    rw [if_pos h1, hl]
    simp only [Option.map_some', Option.some.injEq]
    have ha : anchor_after N s date = s.last_orbitJD + dp * (s.re.sidereal_period / N) := by
      simp [anchor_after, hsh, hdp]
    have ho : orbit_after N s date = fun j =>
        if j < N then
          (if (j : ℤ) + dp ≥ N then
            helio_sample s (calc_date N (s.last_orbitJD + dp * (s.re.sidereal_period / N))
              (s.re.sidereal_period / N) j)
           else s.orbit ((j : ℤ) + dp).toNat)
        else s.orbit j := by
      funext j
      unfold orbit_after
      rw [ha, hdp]
      by_cases hj : j < N
      · by_cases hjd : (j : ℤ) + dp ≥ N
        · have : ¬ (shiftable N s date ∧ 0 ≤ (j : ℤ) + dp ∧ (j : ℤ) + dp < N) := by
            intro hh; omega
          simp only [hj, if_true, this, if_false, hjd]
        · have : shiftable N s date ∧ 0 ≤ (j : ℤ) + dp ∧ (j : ℤ) + dp < N :=
            ⟨hsh, by omega, by omega⟩
          simp only [hj, if_true, this, hjd, if_false, and_self]
      · simp only [hj, if_false]
    rw [ha, ho]
    simp only [h1.2.2]
  · by_cases h2 : dp < 0 ∧ int_abs dp < N ∧ s.orbit_cached = true
    · obtain ⟨e1, hl⟩ := backward_loop N s hw dp h2.1
        (s.last_orbitJD + dp * (s.re.sidereal_period / N)) (s.re.sidereal_period / N)
      have hsh : shiftable N s date := by
        refine ⟨h2.2.2, by rw [hdp]; omega, ?_⟩
        rw [hdp]; exact h2.2.1
      have hneg := h2.1
      refine ⟨e1, ?_⟩
      rw [if_neg h1, if_pos h2, hl]
      simp only [Option.map_some', Option.some.injEq]
      have ha : anchor_after N s date = s.last_orbitJD + dp * (s.re.sidereal_period / N) := by
        simp [anchor_after, hsh, hdp]
      have ho : orbit_after N s date = fun j =>
          if j < N then
            (if (j : ℤ) + dp < 0 then
              helio_sample s (calc_date N (s.last_orbitJD + dp * (s.re.sidereal_period / N))
                (s.re.sidereal_period / N) j)
             else s.orbit ((j : ℤ) + dp).toNat)
          else s.orbit j := by
        funext j
        unfold orbit_after
        rw [ha, hdp]
        by_cases hj : j < N
        · by_cases hjd : (j : ℤ) + dp < 0
          · have : ¬ (shiftable N s date ∧ 0 ≤ (j : ℤ) + dp ∧ (j : ℤ) + dp < N) := by
              intro hh; omega
            simp only [hj, if_true, this, if_false, hjd]
          · have : shiftable N s date ∧ 0 ≤ (j : ℤ) + dp ∧ (j : ℤ) + dp < N :=
              ⟨hsh, by omega, by omega⟩
            simp only [hj, if_true, this, hjd, if_false, and_self]
        · simp only [hj, if_false]
      rw [ha, ho]
      simp only [h2.2.2]
    · have h3 : dp ≠ 0 ∨ s.orbit_cached = false := by
        cases hc : s.orbit_cached with
        | false => exact Or.inr rfl
        | true => exact Or.inl (hne hc)
      obtain ⟨e1, hl⟩ := recompute_loop N s hw date (s.re.sidereal_period / N)
      have hsh : ¬ shiftable N s date := by
        rintro ⟨hc, hnz, hlt⟩
        rw [hdp] at hnz hlt
        rcases lt_or_gt_of_ne hnz with hneg | hpos
        · exact h2 ⟨hneg, hlt, hc⟩
        · rw [int_abs_of_pos dp hpos] at hlt
          exact h1 ⟨hpos, hlt, hc⟩
      refine ⟨e1, ?_⟩
      rw [if_neg h1, if_neg h2, if_pos h3, hl]
      simp only [Option.map_some', Option.some.injEq]
      have ha : anchor_after N s date = date := by simp [anchor_after, hsh]
      have ho : orbit_after N s date = fun j =>
          if j < N then helio_sample s (calc_date N date (s.re.sidereal_period / N) j)
          else s.orbit j := by
        funext j
        unfold orbit_after
        rw [ha]
        simp only [hsh, false_and, if_false]
      rw [ha, ho]

/-! ## Rounding of the window shift -/

theorem toInt_of_nonneg (x : ℚ) (h : 0 ≤ x) : toInt x = ⌊x⌋ := if_pos h

theorem toInt_of_neg (x : ℚ) (h : x < 0) : toInt x = ⌈x⌉ := if_neg (not_le.mpr h)

theorem delta_points_exact_forward (last date inc : ℚ) (hinc : 0 < inc) (h : date > last) :
    delta_points_exact last date inc = ⌊1 / 2 + (date - last) / inc⌋ := by
  have hx : 0 < (date - last) / inc := div_pos (by linarith) hinc
  unfold delta_points_exact
  rw [if_pos h, toInt_of_nonneg _ (by linarith)]

theorem delta_points_exact_backward (last date inc : ℚ) (hinc : 0 < inc) (h : date ≤ last) :
    delta_points_exact last date inc = ⌈-(1 / 2) + (date - last) / inc⌉ := by
  have hx : (date - last) / inc ≤ 0 := div_nonpos_of_nonpos_of_nonneg (by linarith) hinc.le
  unfold delta_points_exact
  rw [if_neg (not_lt.mpr h), toInt_of_neg _ (by linarith)]

theorem delta_points_exact_near (last date inc : ℚ) (hinc : 0 < inc) :
    |(delta_points_exact last date inc : ℚ) - (date - last) / inc| ≤ 1 / 2 := by
  rw [abs_le]
  by_cases h : date > last
  · rw [delta_points_exact_forward last date inc hinc h]
    have h1 := Int.floor_le (1 / 2 + (date - last) / inc)
    have h2 := Int.lt_floor_add_one (1 / 2 + (date - last) / inc)
    constructor <;> linarith
  · rw [delta_points_exact_backward last date inc hinc (not_lt.mp h)]
    have h1 := Int.le_ceil (-(1 / 2) + (date - last) / inc)
    have h2 := Int.ceil_lt_add_one (-(1 / 2) + (date - last) / inc)
    constructor <;> linarith

theorem exact_new_date_near (last date inc : ℚ) (hinc : 0 < inc) :
    |last + (delta_points_exact last date inc : ℚ) * inc - date| ≤ inc / 2 := by
  have h := delta_points_exact_near last date inc hinc
  have hx : (date - last) / inc * inc = date - last := div_mul_cancel₀ _ hinc.ne'
  have he : last + (delta_points_exact last date inc : ℚ) * inc - date =
      ((delta_points_exact last date inc : ℚ) - (date - last) / inc) * inc := by
    rw [sub_mul, hx]; ring
  rw [he, abs_mul, abs_of_pos hinc]
  have := mul_le_mul_of_nonneg_right h hinc.le
  linarith

theorem delta_points_exact_ge (last date inc : ℚ) (hinc : 0 < inc) (k : ℤ) (hk : 0 < k)
    (h : ((k : ℚ) - 1 / 2) * inc ≤ date - last) : k ≤ delta_points_exact last date inc := by
  have hkq : (1 : ℚ) ≤ k := by exact_mod_cast hk
  have hgt : date > last := by
    have := mul_pos (show (0 : ℚ) < (k : ℚ) - 1 / 2 by linarith) hinc
    linarith
  rw [delta_points_exact_forward last date inc hinc hgt, Int.le_floor]
  have : (k : ℚ) - 1 / 2 ≤ (date - last) / inc := (le_div_iff₀ hinc).mpr h
  linarith

theorem delta_points_exact_le (last date inc : ℚ) (hinc : 0 < inc) (k : ℤ) (hk : 0 < k)
    (h : ((k : ℚ) - 1 / 2) * inc ≤ last - date) : delta_points_exact last date inc ≤ -k := by
  have hkq : (1 : ℚ) ≤ k := by exact_mod_cast hk
  have hle : date ≤ last := by
    have := mul_pos (show (0 : ℚ) < (k : ℚ) - 1 / 2 by linarith) hinc
    linarith
  rw [delta_points_exact_backward last date inc hinc hle, Int.ceil_le]
  have : (date - last) / inc ≤ -((k : ℚ) - 1 / 2) := (div_le_iff₀ hinc).mpr (by linarith)
  push_cast
  linarith

/-! ## The 32-bit cast -/

theorem toInt32_cases (x : ℚ) : toInt32 x = toInt x ∨ toInt32 x = -2 ^ 31 := by
  unfold toInt32
  split_ifs
  · exact Or.inl rfl
  · exact Or.inr rfl

theorem delta_points_cases (last date inc : ℚ) :
    delta_points last date inc = delta_points_exact last date inc ∨
      delta_points last date inc = -2 ^ 31 := by
  unfold delta_points delta_points_exact
  split_ifs <;> exact toInt32_cases _

theorem delta_points_exact_bound (last date inc : ℚ) (hinc : 0 < inc)
    (hr : shift_in_range last date inc) :
    -2 ^ 31 < delta_points_exact last date inc ∧ delta_points_exact last date inc < 2 ^ 31 := by
  have hn := delta_points_exact_near last date inc hinc
  rw [abs_le] at hn
  have hx : |(date - last) / inc| < 2 ^ 31 - 1 / 2 := by
    rw [abs_div, abs_of_pos hinc, div_lt_iff₀ hinc]
    exact hr
  rw [abs_lt] at hx
  constructor
  · have : ((-2 ^ 31 : ℤ) : ℚ) < delta_points_exact last date inc := by
      push_cast; linarith
    exact_mod_cast this
  · have : (delta_points_exact last date inc : ℚ) < ((2 ^ 31 : ℤ) : ℚ) := by
      push_cast; linarith
    exact_mod_cast this

theorem delta_points_eq_exact (last date inc : ℚ) (hinc : 0 < inc)
    (hr : shift_in_range last date inc) :
    delta_points last date inc = delta_points_exact last date inc := by
  obtain ⟨h1, h2⟩ := delta_points_exact_bound last date inc hinc hr
  unfold delta_points delta_points_exact at *
  split_ifs at h1 h2 ⊢ <;>
    (unfold toInt32; rw [if_pos ⟨le_of_lt h1, h2⟩])

theorem shift_of_eq_exact (N : ℕ) (s : Planet) (date : ℚ)
    (hpos : 0 < s.re.sidereal_period / N) (hr : cast_ok N s date) :
    shift_of N s date = delta_points_exact s.last_orbitJD date (s.re.sidereal_period / N) :=
  delta_points_eq_exact _ _ _ hpos hr

theorem shift_of_bound (N : ℕ) (s : Planet) (date : ℚ)
    (hpos : 0 < s.re.sidereal_period / N) (hr : cast_ok N s date) :
    -2 ^ 31 < shift_of N s date ∧ shift_of N s date < 2 ^ 31 := by
  rw [shift_of_eq_exact N s date hpos hr]
  exact delta_points_exact_bound _ _ _ hpos hr

/-! ## `compute_position` case by case -/

theorem stale_shift_ne_zero (N : ℕ) (s : Planet) (date : ℚ)
    (hδ : s.delta_orbitJD = s.re.sidereal_period / N) (hst : orbit_stale s date) :
    s.orbit_cached = true → shift_of N s date ≠ 0 := by
  intro hc
  obtain ⟨hpos, hor⟩ := hst
  have hgt : |s.last_orbitJD - date| > s.delta_orbitJD := by
    rcases hor with h | h
    · exact h
    · rw [hc] at h; exact absurd h (by simp)
  rw [hδ] at hpos hgt
  have hex : delta_points_exact s.last_orbitJD date (s.re.sidereal_period / N) ≠ 0 := by
    rcases lt_or_le (s.last_orbitJD - date) 0 with hneg | hnn
    · rw [abs_of_neg hneg] at hgt
      have := delta_points_exact_ge s.last_orbitJD date _ hpos 1 one_pos
        (by push_cast; linarith)
      omega
    · rw [abs_of_nonneg hnn] at hgt
      have := delta_points_exact_le s.last_orbitJD date _ hpos 1 one_pos
        (by push_cast; linarith)
      omega
  unfold shift_of
  rcases delta_points_cases s.last_orbitJD date (s.re.sidereal_period / N) with h | h
  · rw [h]; exact hex
  · rw [h]; norm_num

theorem compute_position_stale (N : ℕ) (s : Planet) (date : ℚ) (hw : s.wellNested)
    (hδ : s.delta_orbitJD = s.re.sidereal_period / N) (hst : orbit_stale s date) :
    compute_position N s date =
      some { s with ecliptic_pos := s.coord_func date, lastJD := date,
                    orbit := orbit_after N s date,
                    last_orbitJD := anchor_after N s date, orbit_cached := true } := by
  obtain ⟨e1, h⟩ := refresh_orbit_spec N s date hw (stale_shift_ne_zero N s date hδ hst)
  unfold compute_position
  rw [if_pos hst, h]
  rfl

theorem compute_position_throttle (N : ℕ) (s : Planet) (date : ℚ)
    (hns : ¬ orbit_stale s date) (ht : |s.lastJD - date| > s.deltaJD) :
    compute_position N s date =
      some { s with ecliptic_pos := s.coord_func date, lastJD := date } := by
  unfold compute_position
  rw [if_neg hns, if_pos ht]

theorem compute_position_fresh (N : ℕ) (s : Planet) (date : ℚ)
    (hns : ¬ orbit_stale s date) (ht : ¬ |s.lastJD - date| > s.deltaJD) :
    compute_position N s date = some s := by
  unfold compute_position
  rw [if_neg hns, if_neg ht]

theorem anchor_after_near (N : ℕ) (s : Planet) (date : ℚ)
    (hpos : 0 < s.re.sidereal_period / N)
    (hr : s.orbit_cached = true → cast_ok N s date) :
    |anchor_after N s date - date| ≤ s.re.sidereal_period / N / 2 := by
  unfold anchor_after
  by_cases h : shiftable N s date
  · rw [if_pos h, shift_of_eq_exact N s date hpos (hr h.1)]
    exact exact_new_date_near s.last_orbitJD date _ hpos
  · rw [if_neg h, sub_self, abs_zero]
    linarith

theorem orbit_after_window (N : ℕ) (s : Planet) (date : ℚ)
    (hinv : s.orbit_cached = true → ∀ i, i < N →
      s.orbit i = helio_sample s (calc_date N s.last_orbitJD (s.re.sidereal_period / N) i))
    (j : ℕ) (hj : j < N) :
    orbit_after N s date j =
      helio_sample s (calc_date N (anchor_after N s date) (s.re.sidereal_period / N) j) := by
  unfold orbit_after
  rw [if_pos hj]
  by_cases h : shiftable N s date ∧ 0 ≤ (j : ℤ) + shift_of N s date ∧
      (j : ℤ) + shift_of N s date < N
  · rw [if_pos h]
    obtain ⟨hsh, h0, hN⟩ := h
    have hlt : ((j : ℤ) + shift_of N s date).toNat < N := by omega
    rw [hinv hsh.1 _ hlt]
    congr 1
    unfold calc_date anchor_after
    rw [if_pos hsh, Int.toNat_of_nonneg h0]
    push_cast
    ring
  · rw [if_neg h]

/-! ## Frame and abort behaviour -/

theorem orbit_sample_frame (s s1 : Planet) (t : ℚ) (d : ℕ) (h : orbit_sample s t d = some s1) :
    ∃ e o, s1 = { s with ecliptic_pos := e, orbit := o } := by
  unfold orbit_sample at h
  simp only [Option.map_eq_some'] at h
  obtain ⟨v, _, hv⟩ := h
  exact ⟨_, _, hv.symm⟩

theorem shift_forward_body_frame (N : ℕ) (dp : ℤ) (nd inc : ℚ) (d : ℕ) (s s1 : Planet)
    (h : shift_forward_body N dp nd inc d s = some s1) :
    ∃ e o, s1 = { s with ecliptic_pos := e, orbit := o } := by
  unfold shift_forward_body at h
  split_ifs at h
  · exact orbit_sample_frame s s1 _ d h
  · simp only [Option.some.injEq] at h
    exact ⟨s.ecliptic_pos, _, h.symm⟩

theorem shift_backward_body_frame (N : ℕ) (dp : ℤ) (nd inc : ℚ) (d : ℕ) (s s1 : Planet)
    (h : shift_backward_body N dp nd inc d s = some s1) :
    ∃ e o, s1 = { s with ecliptic_pos := e, orbit := o } := by
  unfold shift_backward_body at h
  split_ifs at h
  · exact orbit_sample_frame s s1 _ d h
  · simp only [Option.some.injEq] at h
    exact ⟨s.ecliptic_pos, _, h.symm⟩

theorem forLoop_frame (body : ℕ → Planet → Option Planet)
    (hb : ∀ d s s1, body d s = some s1 → ∃ e o, s1 = { s with ecliptic_pos := e, orbit := o }) :
    ∀ ds s s1, forLoop body ds s = some s1 →
      ∃ e o, s1 = { s with ecliptic_pos := e, orbit := o } := by
  intro ds
  induction ds with
  | nil =>
    intro s s1 h
    simp only [forLoop, Option.some.injEq] at h
    exact ⟨s.ecliptic_pos, s.orbit, by rw [← h, planet_eta]⟩
  | cons d rest ih =>
    intro s s1 h
    simp only [forLoop, Option.bind_eq_some] at h
    obtain ⟨s2, h2, h3⟩ := h
    obtain ⟨e, o, rfl⟩ := hb d s s2 h2
    obtain ⟨e1, o1, rfl⟩ := ih _ s1 h3
    exact ⟨e1, o1, rfl⟩

theorem refresh_orbit_frame (N : ℕ) (s s1 : Planet) (date : ℚ)
    (h : refresh_orbit N s date = some s1) :
    ∃ e o l c, s1 = { s with ecliptic_pos := e, orbit := o, last_orbitJD := l,
                             orbit_cached := c } := by
  unfold refresh_orbit at h
  simp only at h
  split_ifs at h
  · simp only [Option.map_eq_some'] at h
    obtain ⟨s2, h2, rfl⟩ := h
    obtain ⟨e, o, rfl⟩ := forLoop_frame _ (shift_forward_body_frame N _ _ _) _ _ _ h2
    exact ⟨e, o, _, s.orbit_cached, rfl⟩
  · simp only [Option.map_eq_some'] at h
    obtain ⟨s2, h2, rfl⟩ := h
    obtain ⟨e, o, rfl⟩ := forLoop_frame _ (shift_backward_body_frame N _ _ _) _ _ _ h2
    exact ⟨e, o, _, s.orbit_cached, rfl⟩
  · simp only [Option.map_eq_some'] at h
    obtain ⟨s2, h2, rfl⟩ := h
    obtain ⟨e, o, rfl⟩ := forLoop_frame _
      (fun d s s1 hh => orbit_sample_frame s s1 _ d hh) _ _ _ h2
    exact ⟨e, o, _, true, rfl⟩
  · simp only [Option.some.injEq] at h
    subst h
    exact ⟨s.ecliptic_pos, s.orbit, s.last_orbitJD, s.orbit_cached, by cases s; rfl⟩

theorem compute_position_frame (N : ℕ) (s s1 : Planet) (date : ℚ)
    (h : compute_position N s date = some s1) :
    ∃ e o l c j, s1 = { s with ecliptic_pos := e, orbit := o, last_orbitJD := l,
                               orbit_cached := c, lastJD := j } := by
  unfold compute_position at h
  split_ifs at h
  · simp only [Option.map_eq_some'] at h
    obtain ⟨s2, h2, rfl⟩ := h
    obtain ⟨e, o, l, c, rfl⟩ := refresh_orbit_frame N s s2 date h2
    exact ⟨_, o, l, c, date, rfl⟩
  · simp only [Option.some.injEq] at h
    subst h
    exact ⟨_, s.orbit, s.last_orbitJD, s.orbit_cached, date, rfl⟩
  · simp only [Option.some.injEq] at h
    subst h
    exact ⟨s.ecliptic_pos, s.orbit, s.last_orbitJD, s.orbit_cached, s.lastJD, by cases s; rfl⟩

theorem orbit_sample_abort (s : Planet) (hw : ¬ s.wellNested) (t : ℚ) (d : ℕ) :
    orbit_sample s t d = none := by
  have h : helioRun { s with ecliptic_pos := s.coord_func t } = none :=
    (helioRun_eq_none_iff _).mpr hw
  simp [orbit_sample, get_heliocentric_ecliptic_pos, h]

theorem forLoop_abort (body : ℕ → Planet → Option Planet)
    (hb : ∀ d s s1, body d s = some s1 → ∃ e o, s1 = { s with ecliptic_pos := e, orbit := o })
    (d0 : ℕ) (hab : ∀ s : Planet, ¬ s.wellNested → body d0 s = none) :
    ∀ ds, d0 ∈ ds → ∀ s : Planet, ¬ s.wellNested → forLoop body ds s = none := by
  intro ds
  induction ds with
  | nil => intro h; simp at h
  | cons d rest ih =>
    intro hmem s hw
    simp only [forLoop]
    cases hbd : body d s with
    | none => rfl
    | some s1 =>
      obtain ⟨e, o, rfl⟩ := hb d s s1 hbd
      rcases List.mem_cons.mp hmem with hd | hr
      · subst hd
        rw [hab s hw] at hbd
        exact absurd hbd (by simp)
      · exact ih hr _ hw

theorem refresh_orbit_abort (N : ℕ) (s : Planet) (date : ℚ) (hN : 0 < N)
    (hw : ¬ s.wellNested) (hne : s.orbit_cached = true → shift_of N s date ≠ 0) :
    refresh_orbit N s date = none := by
  unfold refresh_orbit
  simp only
  have hdpdef : delta_points s.last_orbitJD date (s.re.sidereal_period / N) = shift_of N s date :=
    rfl
  rw [hdpdef]
  generalize shift_of N s date = dp at hne
  by_cases h1 : dp > 0 ∧ dp < N ∧ s.orbit_cached = true
  · rw [if_pos h1]
    have := forLoop_abort _ (shift_forward_body_frame N dp
      (s.last_orbitJD + dp * (s.re.sidereal_period / N)) (s.re.sidereal_period / N)) (N - 1)
      (fun s' hw' => by
        unfold shift_forward_body
        rw [if_pos (by omega)]
        exact orbit_sample_abort s' hw' _ _)
      (List.range N) (List.mem_range.mpr (by omega)) s hw
    rw [this]; rfl
  · rw [if_neg h1]
    by_cases h2 : dp < 0 ∧ int_abs dp < N ∧ s.orbit_cached = true
    · rw [if_pos h2]
      have := forLoop_abort _ (shift_backward_body_frame N dp
        (s.last_orbitJD + dp * (s.re.sidereal_period / N)) (s.re.sidereal_period / N)) 0
        (fun s' hw' => by
          unfold shift_backward_body
          rw [if_pos (by have := h2.1; omega)]
          exact orbit_sample_abort s' hw' _ _)
        (List.range N).reverse (by simpa using hN) s hw
      rw [this]; rfl
    · rw [if_neg h2]
      have h3 : dp ≠ 0 ∨ s.orbit_cached = false := by
        cases hc : s.orbit_cached with
        | false => exact Or.inr rfl
        | true => exact Or.inl (hne hc)
      rw [if_pos h3]
      have := forLoop_abort (recompute_body N date (s.re.sidereal_period / N))
        (fun d s s1 hh => orbit_sample_frame s s1 _ d hh) 0
        (fun s' hw' => orbit_sample_abort s' hw' _ _)
        (List.range N) (List.mem_range.mpr hN) s hw
      rw [this]; rfl

theorem stale_N_pos (N : ℕ) (s : Planet) (date : ℚ)
    (hδ : s.delta_orbitJD = s.re.sidereal_period / N) (hst : orbit_stale s date) : 0 < N := by
  rcases Nat.eq_zero_or_pos N with h0 | hpos
  · have := hst.1
    rw [hδ, h0] at this
    simp at this
  · exact hpos

theorem compute_position_abort (N : ℕ) (s : Planet) (date : ℚ)
    (hδ : s.delta_orbitJD = s.re.sidereal_period / N) (hst : orbit_stale s date)
    (hw : ¬ s.wellNested) : compute_position N s date = none := by
  unfold compute_position
  rw [if_pos hst, refresh_orbit_abort N s date (stale_N_pos N s date hδ hst) hw
    (stale_shift_ne_zero N s date hδ hst)]
  rfl

theorem wellNested_of_stale_some (N : ℕ) (s s1 : Planet) (date : ℚ)
    (hδ : s.delta_orbitJD = s.re.sidereal_period / N) (hst : orbit_stale s date)
    (h : compute_position N s date = some s1) : s.wellNested := by
  by_contra hw
  rw [compute_position_abort N s date hδ hst hw] at h
  exact absurd h (by simp)

theorem compute_position_total (N : ℕ) (s : Planet) (date : ℚ) (hw : s.wellNested) :
    ∃ s1, compute_position N s date = some s1 := by
  unfold compute_position
  by_cases hst : orbit_stale s date
  · rw [if_pos hst]
    by_cases hne : s.orbit_cached = true → shift_of N s date ≠ 0
    · obtain ⟨e1, h⟩ := refresh_orbit_spec N s date hw hne
      rw [h]
      exact ⟨_, rfl⟩
    · have hc : s.orbit_cached = true := by
        by_contra hc; exact hne (fun h => absurd h hc)
      have hz : shift_of N s date = 0 := by
        by_contra hz; exact hne (fun _ => hz)
      have hr : refresh_orbit N s date = some s := by
        unfold refresh_orbit
        simp only
        have hdpdef : delta_points s.last_orbitJD date (s.re.sidereal_period / N) =
          shift_of N s date := rfl
        rw [hdpdef, hz]
        simp [hc]
      rw [hr]
      exact ⟨_, rfl⟩
  · rw [if_neg hst]
    split_ifs <;> exact ⟨_, rfl⟩

/-! ## One step of the orbit window -/

theorem helio_sample_local (s : Planet) (hp : s.helioLocal) (t : ℚ) :
    helio_sample s t = s.coord_func t :=
  helioOf_of_helioLocal s hp _

theorem not_stale_fresh (s : Planet) (date : ℚ) (hpos : 0 < s.delta_orbitJD)
    (hns : ¬ orbit_stale s date) :
    s.orbit_cached = true ∧ |s.last_orbitJD - date| ≤ s.delta_orbitJD := by
  unfold orbit_stale at hns
  push_neg at hns
  have h := hns hpos
  constructor
  · cases hc : s.orbit_cached with
    | false => exact absurd hc h.2
    | true => rfl
  · exact h.1

theorem compute_position_not_stale (N : ℕ) (s : Planet) (date : ℚ)
    (hns : ¬ orbit_stale s date) :
    ∃ e j, compute_position N s date = some { s with ecliptic_pos := e, lastJD := j } ∧
      (j = date ∨ |j - date| ≤ s.deltaJD) := by
  by_cases ht : |s.lastJD - date| > s.deltaJD
  · exact ⟨_, _, compute_position_throttle N s date hns ht, Or.inl rfl⟩
  · refine ⟨s.ecliptic_pos, s.lastJD, ?_, Or.inr (not_lt.mp ht)⟩
    rw [compute_position_fresh N s date hns ht]
    cases s; rfl

/-- One call of `compute_position` on a body whose heliocentric position is its
local position: the call returns, the window predicate is kept, the cache is
populated, re-anchored when it was stale and left alone otherwise. -/
theorem compute_position_step (N : ℕ) (s : Planet) (date : ℚ) (hp : s.helioLocal)
    (hδ : s.delta_orbitJD = s.re.sidereal_period / N) (hpos : 0 < s.delta_orbitJD)
    (hinv : OrbitWindowInv N s) :
    ∃ s1, compute_position N s date = some s1 ∧ OrbitWindowInv N s1 ∧
      s1.orbit_cached = true ∧
      s1.last_orbitJD =
        (if orbit_stale s date then anchor_after N s date else s.last_orbitJD) ∧
      s1.parent = s.parent ∧ s1.re = s.re ∧ s1.delta_orbitJD = s.delta_orbitJD ∧
      s1.coord_func = s.coord_func := by
  by_cases hst : orbit_stale s date
  · refine ⟨_, compute_position_stale N s date (helioLocal_wellNested s hp) hδ hst,
      ?_, rfl, ?_, rfl, rfl, rfl, rfl⟩
    · intro _ i hi
      have h := orbit_after_window N s date
        (fun hc i hi => by rw [helio_sample_local s hp]; exact hinv hc i hi) i hi
      rw [helio_sample_local s hp] at h
      exact h
    · show anchor_after N s date = _
      rw [if_pos hst]
  · obtain ⟨e, j, h, _⟩ := compute_position_not_stale N s date hst
    obtain ⟨hc, _⟩ := not_stale_fresh s date hpos hst
    refine ⟨_, h, ?_, hc, ?_, rfl, rfl, rfl, rfl⟩
    · exact hinv
    · show s.last_orbitJD = _
      rw [if_neg hst]

/-- The anchor left by one call lies within `deltaSample` of `date`, provided
the shift of a populated cache stays inside the range of `int`. -/
theorem step_anchor_near (N : ℕ) (s : Planet) (date : ℚ)
    (hδ : s.delta_orbitJD = s.re.sidereal_period / N) (hpos : 0 < s.delta_orbitJD)
    (hr : s.orbit_cached = true → cast_ok N s date) :
    |(if orbit_stale s date then anchor_after N s date else s.last_orbitJD) - date|
      ≤ s.delta_orbitJD := by
  by_cases hst : orbit_stale s date
  · rw [if_pos hst]
    have h := anchor_after_near N s date (by rw [← hδ]; exact hpos) hr
    rw [← hδ] at h
    linarith
  · rw [if_neg hst]
    exact (not_stale_fresh s date hpos hst).2

/-! ## Worked example states -/

theorem demo_new_helioLocal : demo_new.helioLocal := by
  intro p hp
  exact absurd hp (by simp [demo_new, set_rotation_elements, Planet.ctor])

theorem demo_new_delta : demo_new.delta_orbitJD = demo_new.re.sidereal_period / (4 : ℕ) := rfl

theorem demo_new_delta_pos : 0 < demo_new.delta_orbitJD := by
  simp [demo_new, set_rotation_elements, Planet.ctor]

theorem demo_new_inv : OrbitWindowInv 4 demo_new := by
  intro h
  exact absurd h (by simp [demo_new, set_rotation_elements, Planet.ctor])

/-! ## C1: the orbit-window invariant -/

/-- C1. For a body whose parent is absent or is the root, with
`deltaSample = sidereal_period / ORBIT_SEGMENTS > 0`, the orbit-window
predicate (`orbit_cached` implies `orbit[i] = coord_func(last_orbitJD +
(i - N/2) * deltaSample)` for every slot) is preserved by `compute_position`
for every date, the call returns, and a call on an unpopulated cache (the
first call) leaves the cache populated; the hypotheses themselves carry over to
the new state. -/
theorem orbit_window_invariant (N : ℕ) (s : Planet) (date : ℚ) (hp : s.helioLocal)
    (hδ : s.delta_orbitJD = s.re.sidereal_period / N) (hpos : 0 < s.delta_orbitJD)
    (hinv : OrbitWindowInv N s) :
    ∃ s1, compute_position N s date = some s1 ∧ OrbitWindowInv N s1 ∧
      (s.orbit_cached = false → s1.orbit_cached = true) ∧
      s1.helioLocal ∧ s1.delta_orbitJD = s1.re.sidereal_period / N ∧
      0 < s1.delta_orbitJD := by
  obtain ⟨s1, h, hinv1, hc, _, hpar, hre, hd, _⟩ :=
    compute_position_step N s date hp hδ hpos hinv
  refine ⟨s1, h, hinv1, fun _ => hc, ?_, ?_, ?_⟩
  · intro p hp1
    rw [hpar] at hp1
    exact hp p hp1
  · rw [hd, hre]; exact hδ
  · rw [hd]; exact hpos

/-- C1 at the first call on a freshly constructed body. -/
theorem orbit_window_invariant_witness :
    demo_new.helioLocal ∧ demo_new.delta_orbitJD = demo_new.re.sidereal_period / (4 : ℕ) ∧
    0 < demo_new.delta_orbitJD ∧ OrbitWindowInv 4 demo_new ∧
    ∃ s1, compute_position 4 demo_new 0 = some s1 ∧ OrbitWindowInv 4 s1 ∧
      (demo_new.orbit_cached = false → s1.orbit_cached = true) ∧
      s1.helioLocal ∧ s1.delta_orbitJD = s1.re.sidereal_period / (4 : ℕ) ∧
      0 < s1.delta_orbitJD :=
  ⟨demo_new_helioLocal, demo_new_delta, demo_new_delta_pos, demo_new_inv,
    orbit_window_invariant 4 demo_new 0 demo_new_helioLocal demo_new_delta
      demo_new_delta_pos demo_new_inv⟩

/-! ## C2: cache equivalence -/

theorem small_step_cast_ok (N : ℕ) (s : Planet) (date : ℚ)
    (hpos : 0 < s.re.sidereal_period / N)
    (h : |date - s.last_orbitJD| ≤ (2 ^ 30 + 1) * (s.re.sidereal_period / N)) :
    cast_ok N s date := by
  unfold cast_ok shift_in_range
  have : (2 ^ 30 + 1 : ℚ) * (s.re.sidereal_period / N)
      < (2 ^ 31 - 1 / 2) * (s.re.sidereal_period / N) :=
    mul_lt_mul_of_pos_right (by norm_num) hpos
  linarith

theorem feed_window (N : ℕ) (δ : ℚ) (hδpos : 0 < δ) :
    ∀ (rest : List ℚ) (t : ℚ) (s : Planet), s.helioLocal →
    s.delta_orbitJD = s.re.sidereal_period / N → s.delta_orbitJD = δ → OrbitWindowInv N s →
    (s.orbit_cached = true → |t - s.last_orbitJD| ≤ (2 ^ 30 + 1) * δ) →
    List.Chain (fun a b => |b - a| ≤ 2 ^ 30 * δ) t rest →
    ∃ s1, feed N (t :: rest) s = some s1 ∧ s1.orbit_cached = true ∧
      |s1.last_orbitJD - (t :: rest).getLast (List.cons_ne_nil t rest)| ≤ δ ∧
      ∀ d, d < N →
        s1.orbit d = s.coord_func (calc_date N s1.last_orbitJD (s.re.sidereal_period / N) d) := by
  intro rest
  induction rest with
  | nil =>
    intro t s hp hδ hδ2 hinv hfirst _
    have hpos : 0 < s.delta_orbitJD := by rw [hδ2]; exact hδpos
    obtain ⟨s1, h1, hinv1, hc1, hl1, hpar, hre, hd, hcf⟩ :=
      compute_position_step N s t hp hδ hpos hinv
    have hnear := step_anchor_near N s t hδ hpos (fun hc =>
      small_step_cast_ok N s t (by rw [← hδ]; exact hpos) (by rw [← hδ, hδ2]; exact hfirst hc))
    rw [← hl1, hδ2] at hnear
    refine ⟨s1, by simp [feed, h1], hc1, by simpa using hnear, ?_⟩
    intro d hd1
    have := hinv1 hc1 d hd1
    rw [hcf, hre] at this
    exact this
  | cons t2 rest2 ih =>
    intro t s hp hδ hδ2 hinv hfirst hchain
    have hpos : 0 < s.delta_orbitJD := by rw [hδ2]; exact hδpos
    obtain ⟨s1, h1, hinv1, hc1, hl1, hpar, hre, hd, hcf⟩ :=
      compute_position_step N s t hp hδ hpos hinv
    have hnear := step_anchor_near N s t hδ hpos (fun hc =>
      small_step_cast_ok N s t (by rw [← hδ]; exact hpos) (by rw [← hδ, hδ2]; exact hfirst hc))
    rw [← hl1, hδ2] at hnear
    rw [List.chain_cons] at hchain
    have hp1 : s1.helioLocal := by
      intro p hp1
      rw [hpar] at hp1
      exact hp p hp1
    have hfirst1 : s1.orbit_cached = true → |t2 - s1.last_orbitJD| ≤ (2 ^ 30 + 1) * δ := by
      intro _
      have h3 : |t2 - s1.last_orbitJD| ≤ |t2 - t| + |t - s1.last_orbitJD| := by
        have := abs_add (t2 - t) (t - s1.last_orbitJD)
        rwa [sub_add_sub_cancel] at this
      rw [abs_sub_comm t s1.last_orbitJD] at h3
      linarith [hchain.1]
    obtain ⟨s2, h2, hc2, hnear2, hwin2⟩ := ih t2 s1 hp1
      (by rw [hd, hre]; exact hδ) (by rw [hd]; exact hδ2) hinv1 hfirst1 hchain.2
    refine ⟨s2, by simp only [feed, h1, Option.some_bind] at h2 ⊢; exact h2, hc2, ?_, ?_⟩
    · rw [List.getLast_cons (List.cons_ne_nil t2 rest2)]
      exact hnear2
    · intro d hd1
      rw [← hcf, ← hre]
      exact hwin2 d hd1

/-- C2, as stated, fails.  On the fresh root body `demo_new` (`N = 4`,
`deltaSample = 1`, `coord_func t = (t, 0, 0)`) the increasing times `0, 5/4`
shift the window by one slot and anchor it at `1`: slot `0` holds
`coord_func(-1)` while a full recompute at `5/4` would hold `coord_func(-3/4)`.
With the times `0, 1/2` the second call does not touch the cache: slot `0`
holds `coord_func(-2)`, not `coord_func(-3/2)`. -/
theorem cache_equivalence_counterexample :
    (feed 4 [0, 5 / 4] demo_new).map (fun s => (s.last_orbitJD, s.orbit 0))
        = some (1, ⟨-1, 0, 0⟩) ∧
      demo_new.coord_func (calc_date 4 (5 / 4) (demo_new.re.sidereal_period / (4 : ℕ)) 0)
        = ⟨-3 / 4, 0, 0⟩ ∧
      (feed 4 [0, 1 / 2] demo_new).map (fun s => (s.last_orbitJD, s.orbit 0))
        = some (0, ⟨-2, 0, 0⟩) ∧
      demo_new.coord_func (calc_date 4 (1 / 2) (demo_new.re.sidereal_period / (4 : ℕ)) 0)
        = ⟨-3 / 2, 0, 0⟩ := by
  decide!

/-- C2, amended.  For a body whose parent is absent or is the root, with
`deltaSample > 0`, started in a state satisfying the orbit-window predicate
(for instance freshly constructed), and for every non-empty sequence of times
fed in order to `compute_position` that advances in small steps (consecutive
times differ by at most `2^30` sample intervals and, when the cache is already
populated, the first time lies within `2^30` sample intervals of
`last_orbitJD`; in particular every strictly increasing such sequence), all
calls return, the cache ends populated, and the final orbit samples equal those
of a full recompute at the final anchor `last_orbitJD`, which lies within
`deltaSample` of the final time `tn`:
`orbit[d] = coord_func(last_orbitJD + (d - N/2) * deltaSample)`. -/
theorem cache_equivalence_anchor (N : ℕ) (s : Planet) (ts : List ℚ) (hne : ts ≠ [])
    (hp : s.helioLocal) (hδ : s.delta_orbitJD = s.re.sidereal_period / N)
    (hpos : 0 < s.delta_orbitJD) (hinv : OrbitWindowInv N s)
    (hfirst : s.orbit_cached = true →
      |ts.head hne - s.last_orbitJD| ≤ 2 ^ 30 * s.delta_orbitJD)
    (hsteps : ts.Chain' (fun a b => |b - a| ≤ 2 ^ 30 * s.delta_orbitJD)) :
    ∃ s1, feed N ts s = some s1 ∧ s1.orbit_cached = true ∧
      |s1.last_orbitJD - ts.getLast hne| ≤ s.delta_orbitJD ∧
      ∀ d, d < N →
        s1.orbit d = s.coord_func (calc_date N s1.last_orbitJD (s.re.sidereal_period / N) d) := by
  cases ts with
  | nil => exact absurd rfl hne
  | cons t rest =>
    exact feed_window N s.delta_orbitJD hpos rest t s hp hδ rfl hinv
      (fun hc => by
        have := hfirst hc
        simp only [List.head_cons] at this
        linarith)
      hsteps

/-- C2 amended, at the times `0, 5/4` on the fresh body `demo_new`. -/
theorem cache_equivalence_anchor_witness :
    demo_new.helioLocal ∧ demo_new.delta_orbitJD = demo_new.re.sidereal_period / (4 : ℕ) ∧
    0 < demo_new.delta_orbitJD ∧ OrbitWindowInv 4 demo_new ∧
    (demo_new.orbit_cached = true →
      |[(0 : ℚ), 5 / 4].head (List.cons_ne_nil _ _) - demo_new.last_orbitJD|
        ≤ 2 ^ 30 * demo_new.delta_orbitJD) ∧
    [(0 : ℚ), 5 / 4].Chain' (fun a b => |b - a| ≤ 2 ^ 30 * demo_new.delta_orbitJD) ∧
    ∃ s1, feed 4 [0, 5 / 4] demo_new = some s1 ∧ s1.orbit_cached = true ∧
      |s1.last_orbitJD - [(0 : ℚ), 5 / 4].getLast (List.cons_ne_nil _ _)|
        ≤ demo_new.delta_orbitJD ∧
      ∀ d, d < 4 →
        s1.orbit d = demo_new.coord_func
          (calc_date 4 s1.last_orbitJD (demo_new.re.sidereal_period / (4 : ℕ)) d) :=
  ⟨demo_new_helioLocal, demo_new_delta, demo_new_delta_pos, demo_new_inv,
    by decide!, List.chain'_pair.mpr (by decide!),
    cache_equivalence_anchor 4 demo_new [0, 5 / 4] (List.cons_ne_nil _ _)
      demo_new_helioLocal demo_new_delta demo_new_delta_pos demo_new_inv
      (by decide!) (List.chain'_pair.mpr (by decide!))⟩

/-! ## C3: the current-position postcondition -/

/-- C3. `compute_position(date)` returns on every body without a
great-grandparent, and on every state whose cache is not stale.  Whenever it
returns: if the orbit-refresh condition holds or the throttle is exceeded then
afterwards `ecliptic_pos = coord_func(date)` and `lastJD = date` (the samples
written to `ecliptic_pos` inside the slot loops are overwritten); if neither
holds the state is unchanged; and when `delta_orbitJD <= 0` the orbit samples,
`last_orbitJD` and `orbit_cached` are not modified. -/
theorem current_position_postcondition (N : ℕ) (s : Planet) (date : ℚ) :
    ((s.wellNested ∨ ¬ orbit_stale s date) → ∃ s1, compute_position N s date = some s1) ∧
    ∀ s1, compute_position N s date = some s1 →
      ((orbit_stale s date ∨ |s.lastJD - date| > s.deltaJD) →
        s1.ecliptic_pos = s.coord_func date ∧ s1.lastJD = date) ∧
      ((¬ orbit_stale s date ∧ ¬ |s.lastJD - date| > s.deltaJD) → s1 = s) ∧
      (s.delta_orbitJD ≤ 0 →
        s1.orbit = s.orbit ∧ s1.last_orbitJD = s.last_orbitJD ∧
        s1.orbit_cached = s.orbit_cached) := by
  constructor
  · rintro (hw | hns)
    · exact compute_position_total N s date hw
    · obtain ⟨e, j, h, _⟩ := compute_position_not_stale N s date hns
      exact ⟨_, h⟩
  · intro s1 h
    by_cases hst : orbit_stale s date
    · have hpos : 0 < s.delta_orbitJD := hst.1
      unfold compute_position at h
      rw [if_pos hst] at h
      simp only [Option.map_eq_some'] at h
      obtain ⟨s2, h2, rfl⟩ := h
      obtain ⟨e, o, l, c, rfl⟩ := refresh_orbit_frame N s s2 date h2
      exact ⟨fun _ => ⟨rfl, rfl⟩, fun hn => absurd hst hn.1,
        fun hle => absurd hpos (not_lt.mpr hle)⟩
    · by_cases ht : |s.lastJD - date| > s.deltaJD
      · rw [compute_position_throttle N s date hst ht] at h
        simp only [Option.some.injEq] at h
        subst h
        exact ⟨fun _ => ⟨rfl, rfl⟩, fun hn => absurd ht hn.2, fun _ => ⟨rfl, rfl, rfl⟩⟩
      · rw [compute_position_fresh N s date hst ht] at h
        simp only [Option.some.injEq] at h
        subst h
        refine ⟨fun hor => ?_, fun _ => rfl, fun _ => ⟨rfl, rfl, rfl⟩⟩
        rcases hor with h1 | h1
        · exact absurd h1 hst
        · exact absurd h1 ht

/-! ## C4: idempotence of the refresh -/

/-- Idempotence inside the range of `int`.  With
`delta_orbitJD = sidereal_period / ORBIT_SEGMENTS` (as left by
`set_rotation_elements`), `deltaJD > 0` and, when the cache is populated,
`|date - last_orbitJD| < (2^31 - 1/2) * delta_orbitJD`: `compute_position(date)`
returns on every body without a great-grandparent, and whenever it returns the
cache is fresh for `date`, `lastJD = date` or `|lastJD - date| <= deltaJD`, and
an immediately repeated `compute_position(date)` returns the same state. -/
theorem refresh_idempotent_in_range (N : ℕ) (s : Planet) (date : ℚ)
    (hδ : s.delta_orbitJD = s.re.sidereal_period / N) (hJD : 0 < s.deltaJD)
    (hr : s.orbit_cached = true → cast_ok N s date) :
    (s.wellNested → ∃ s1, compute_position N s date = some s1) ∧
    ∀ s1, compute_position N s date = some s1 →
      (0 < s1.delta_orbitJD →
        s1.orbit_cached = true ∧ |s1.last_orbitJD - date| ≤ s1.delta_orbitJD) ∧
      (s1.lastJD = date ∨ |s1.lastJD - date| ≤ s1.deltaJD) ∧
      compute_position N s1 date = some s1 := by
  refine ⟨compute_position_total N s date, ?_⟩
  intro s1 h
  by_cases hst : orbit_stale s date
  · have hw := wellNested_of_stale_some N s s1 date hδ hst h
    have hpos : 0 < s.re.sidereal_period / N := by rw [← hδ]; exact hst.1
    rw [compute_position_stale N s date hw hδ hst] at h
    simp only [Option.some.injEq] at h
    subst h
    have hnear : |anchor_after N s date - date| ≤ s.delta_orbitJD := by
      have := anchor_after_near N s date hpos hr
      rw [hδ]; linarith
    refine ⟨fun _ => ⟨rfl, hnear⟩, Or.inl rfl, ?_⟩
    apply compute_position_fresh
    · rintro ⟨_, hgt | hc⟩
      · exact absurd hnear (not_le.mpr hgt)
      · exact absurd hc (by simp)
    · show ¬ |date - date| > s.deltaJD
      rw [sub_self, abs_zero]
      exact not_lt.mpr hJD.le
  · obtain ⟨e, j, h2, hj⟩ := compute_position_not_stale N s date hst
    rw [h2] at h
    simp only [Option.some.injEq] at h
    subst h
    refine ⟨fun hpos => not_stale_fresh s date hpos hst, hj, ?_⟩
    apply compute_position_fresh
    · exact hst
    · show ¬ |j - date| > s.deltaJD
      rcases hj with rfl | hle
      · rw [sub_self, abs_zero]; exact not_lt.mpr hJD.le
      · exact not_lt.mpr hle

/-- The in-range idempotence on the fresh body `demo_new`, first call at date `0`. -/
theorem refresh_idempotent_in_range_witness :
    demo_new.delta_orbitJD = demo_new.re.sidereal_period / (4 : ℕ) ∧ 0 < demo_new.deltaJD ∧
    (demo_new.orbit_cached = true → cast_ok 4 demo_new 0) ∧
    ((demo_new.wellNested → ∃ s1, compute_position 4 demo_new 0 = some s1) ∧
    ∀ s1, compute_position 4 demo_new 0 = some s1 →
      (0 < s1.delta_orbitJD →
        s1.orbit_cached = true ∧ |s1.last_orbitJD - 0| ≤ s1.delta_orbitJD) ∧
      (s1.lastJD = 0 ∨ |s1.lastJD - 0| ≤ s1.deltaJD) ∧
      compute_position 4 s1 0 = some s1) :=
  ⟨demo_new_delta, by simp [demo_new, set_rotation_elements, Planet.ctor], by decide!,
    refresh_idempotent_in_range 4 demo_new 0 demo_new_delta
      (by simp [demo_new, set_rotation_elements, Planet.ctor]) (by decide!)⟩

/-- C4 fails on the code.  On the populated body `demo_cached` (`N = 4`,
`delta_orbitJD = 1`, `deltaJD > 0`, window anchored at `0`) and the date
`3000000000`, the quotient `3000000000` does not fit the 32-bit `int`
`delta_points`: the cast yields `INT_MIN`, `abs(INT_MIN) < ORBIT_SEGMENTS`
selects the backward-shift branch and the window is anchored at `-2147483648`.
The cache is then not fresh for the date, and the repeated call shifts again,
to `-4294967296`: the state after two calls differs from the state after one.
The same happens from construction: the fresh body `demo_new` fed the dates
`0, 3000000000, 3000000000`. -/
theorem refresh_overflow_not_idempotent :
    demo_cached.delta_orbitJD = demo_cached.re.sidereal_period / (4 : ℕ) ∧
      0 < demo_cached.deltaJD ∧ demo_cached.delta_orbitJD = 1 ∧
      (feed 4 [3000000000] demo_cached).map (fun s => (s.last_orbitJD, s.lastJD))
        = some (-2147483648, 3000000000) ∧
      ¬ |(-2147483648 : ℚ) - 3000000000| ≤ demo_cached.delta_orbitJD ∧
      (feed 4 [3000000000, 3000000000] demo_cached).map (fun s => (s.last_orbitJD, s.lastJD))
        = some (-4294967296, 3000000000) ∧
      (feed 4 [0, 3000000000] demo_new).map (fun s => (s.last_orbitJD, s.lastJD))
        = some (-2147483648, 3000000000) ∧
      (feed 4 [0, 3000000000, 3000000000] demo_new).map (fun s => (s.last_orbitJD, s.lastJD))
        = some (-4294967296, 3000000000) := by
  decide!

/-! ## C6: a large jump forces a full recompute -/

theorem jump_not_shiftable (N : ℕ) (s : Planet) (date : ℚ)
    (hpos : 0 < s.re.sidereal_period / N)
    (hjump : |date - s.last_orbitJD| > N * (s.re.sidereal_period / N) ∨ s.orbit_cached = false)
    (hr : s.orbit_cached = true → cast_ok N s date) :
    ¬ shiftable N s date := by
  rintro ⟨hc, _, hlt⟩
  rcases hjump with hj | hj
  · rw [int_abs_of_gt _ (shift_of_bound N s date hpos (hr hc)).1,
      shift_of_eq_exact N s date hpos (hr hc)] at hlt
    have hN : 0 < N := by
      rcases Nat.eq_zero_or_pos N with h0 | h
      · rw [h0] at hpos; simp at hpos
      · exact h
    have hNq : (1 : ℚ) ≤ N := by exact_mod_cast hN
    have hhalf : ((N : ℤ) : ℚ) - 1 / 2 ≤ N := by push_cast; linarith
    have hmul : (((N : ℤ) : ℚ) - 1 / 2) * (s.re.sidereal_period / N)
        ≤ N * (s.re.sidereal_period / N) := mul_le_mul_of_nonneg_right hhalf hpos.le
    rcases lt_or_le (date - s.last_orbitJD) 0 with hneg | hnn
    · rw [abs_of_neg hneg] at hj
      have := delta_points_exact_le s.last_orbitJD date _ hpos N (by exact_mod_cast hN) (by linarith)
      rw [abs_lt] at hlt
      omega
    · rw [abs_of_nonneg hnn] at hj
      have := delta_points_exact_ge s.last_orbitJD date _ hpos N (by exact_mod_cast hN) (by linarith)
      rw [abs_lt] at hlt
      omega
  · rw [hc] at hj
    exact absurd hj (by simp)

/-- The large jump inside the range of `int`.  With
`delta_orbitJD = sidereal_period / ORBIT_SEGMENTS > 0`, if the cache is not
populated, or `N * delta_orbitJD < |date - last_orbitJD|` and
`|date - last_orbitJD| < (2^31 - 1/2) * delta_orbitJD`, then
`compute_position(date)` takes neither shift branch; it returns on every body
without a great-grandparent, and whenever it returns every slot `d < N` holds
the heliocentric position of the body placed at
`coord_func(date + (d - N/2) * deltaSample)` (no old sample enters it),
`last_orbitJD = date` and `orbit_cached` is set. -/
theorem large_jump_full_recompute_in_range (N : ℕ) (s : Planet) (date : ℚ)
    (hδ : s.delta_orbitJD = s.re.sidereal_period / N) (hpos : 0 < s.delta_orbitJD)
    (hjump : |date - s.last_orbitJD| > N * s.delta_orbitJD ∨ s.orbit_cached = false)
    (hr : s.orbit_cached = true → cast_ok N s date) :
    ¬ shiftable N s date ∧
    (s.wellNested → ∃ s1, compute_position N s date = some s1) ∧
    ∀ s1, compute_position N s date = some s1 →
      (∀ d, d < N →
        get_heliocentric_ecliptic_pos
          { s with ecliptic_pos := s.coord_func (calc_date N date (s.re.sidereal_period / N) d) }
          = some (s1.orbit d)) ∧
      s1.last_orbitJD = date ∧ s1.orbit_cached = true := by
  have hpos2 : 0 < s.re.sidereal_period / N := by rw [← hδ]; exact hpos
  have hnsh : ¬ shiftable N s date := by
    apply jump_not_shiftable N s date hpos2 _ hr
    rw [← hδ]; exact hjump
  have hN : (1 : ℚ) ≤ N := by
    rcases Nat.eq_zero_or_pos N with h0 | h
    · rw [h0] at hpos2; simp at hpos2
    · exact_mod_cast h
  have hst : orbit_stale s date := by
    refine ⟨hpos, ?_⟩
    rcases hjump with hj | hj
    · left
      rw [abs_sub_comm]
      have : s.delta_orbitJD ≤ N * s.delta_orbitJD := by nlinarith
      linarith
    · exact Or.inr hj
  refine ⟨hnsh, compute_position_total N s date, ?_⟩
  intro s1 h
  have hw := wellNested_of_stale_some N s s1 date hδ hst h
  rw [compute_position_stale N s date hw hδ hst] at h
  simp only [Option.some.injEq] at h
  subst h
  have ha : anchor_after N s date = date := by simp [anchor_after, hnsh]
  refine ⟨?_, ha, rfl⟩
  intro d hd
  rw [helio_of_wellNested
    { s with ecliptic_pos := s.coord_func (calc_date N date (s.re.sidereal_period / N) d) } hw]
  show some (helioOf s.parent _) = some (orbit_after N s date d)
  unfold orbit_after
  rw [if_pos hd, if_neg (fun hh => hnsh hh.1), ha]
  rfl

theorem demo_cached_delta :
    demo_cached.delta_orbitJD = demo_cached.re.sidereal_period / (4 : ℕ) := rfl

theorem demo_cached_delta_pos : 0 < demo_cached.delta_orbitJD := by
  simp [demo_cached, demo_new, set_rotation_elements, Planet.ctor]

/-- The in-range large jump on the populated body `demo_cached` (window centred
on `0`, `N * deltaSample = 4`) at date `10`. -/
theorem large_jump_full_recompute_in_range_witness :
    demo_cached.delta_orbitJD = demo_cached.re.sidereal_period / (4 : ℕ) ∧
    0 < demo_cached.delta_orbitJD ∧
    (|10 - demo_cached.last_orbitJD| > (4 : ℕ) * demo_cached.delta_orbitJD ∨
      demo_cached.orbit_cached = false) ∧
    (demo_cached.orbit_cached = true → cast_ok 4 demo_cached 10) ∧
    (¬ shiftable 4 demo_cached 10 ∧
    (demo_cached.wellNested → ∃ s1, compute_position 4 demo_cached 10 = some s1) ∧
    ∀ s1, compute_position 4 demo_cached 10 = some s1 →
      (∀ d, d < 4 →
        get_heliocentric_ecliptic_pos
          { demo_cached with
            ecliptic_pos := demo_cached.coord_func
              (calc_date 4 10 (demo_cached.re.sidereal_period / (4 : ℕ)) d) }
          = some (s1.orbit d)) ∧
      s1.last_orbitJD = 10 ∧ s1.orbit_cached = true) :=
  ⟨demo_cached_delta, demo_cached_delta_pos,
    Or.inl (by norm_num [demo_cached, demo_new, set_rotation_elements, Planet.ctor]),
    by decide!,
    large_jump_full_recompute_in_range 4 demo_cached 10 demo_cached_delta demo_cached_delta_pos
      (Or.inl (by norm_num [demo_cached, demo_new, set_rotation_elements, Planet.ctor]))
      (by decide!)⟩

/-- C6 fails on the code.  On the populated body `demo_cached` (`N = 4`,
`delta_orbitJD = 1`, window anchored at `0`) the date `3000000000` is a jump of
more than `N * delta_orbitJD`, but the quotient does not fit the 32-bit `int`
`delta_points`: the cast yields `INT_MIN`, `abs(INT_MIN) < ORBIT_SEGMENTS`
holds, and the backward-shift branch runs instead of the full recompute.
Afterwards `last_orbitJD = -2147483648`, not the date, and slot `0` holds
`coord_func(-2147483650)`, not `coord_func(2999999998)`.  The same happens
from construction: the fresh body `demo_new` fed the dates `0, 3000000000`. -/
theorem large_jump_overflow :
    demo_cached.delta_orbitJD = demo_cached.re.sidereal_period / (4 : ℕ) ∧
      demo_cached.delta_orbitJD = 1 ∧ demo_cached.orbit_cached = true ∧
      demo_cached.last_orbitJD = 0 ∧
      |(3000000000 : ℚ) - demo_cached.last_orbitJD| > (4 : ℕ) * demo_cached.delta_orbitJD ∧
      shift_of 4 demo_cached 3000000000 = -2147483648 ∧
      shiftable 4 demo_cached 3000000000 ∧
      (compute_position 4 demo_cached 3000000000).map
          (fun s => (s.last_orbitJD, s.orbit_cached, s.orbit 0, s.orbit 3))
        = some (-2147483648, true, ⟨-2147483650, 0, 0⟩, ⟨-2147483647, 0, 0⟩) ∧
      (feed 4 [0, 3000000000] demo_new).map
          (fun s => (s.last_orbitJD, s.orbit_cached, s.orbit 0, s.orbit 3))
        = some (-2147483648, true, ⟨-2147483650, 0, 0⟩, ⟨-2147483647, 0, 0⟩) ∧
      demo_cached.coord_func
          (calc_date 4 3000000000 (demo_cached.re.sidereal_period / (4 : ℕ)) 0)
        = ⟨2999999998, 0, 0⟩ := by
  decide!

/-! ## C5: time reversal -/

theorem int_eq_of_abs_le_half (a b : ℤ) (h : |(a : ℚ) - (b : ℚ)| ≤ 1 / 2) : a = b := by
  rw [abs_le] at h
  have h1 : ((b - 1 : ℤ) : ℚ) < a := by push_cast; linarith
  have h2 : (a : ℚ) < ((b + 1 : ℤ) : ℚ) := by push_cast; linarith
  have h3 : b - 1 < a := by exact_mod_cast h1
  have h4 : a < b + 1 := by exact_mod_cast h2
  omega

theorem delta_points_exact_grid (t0 inc : ℚ) (hinc : 0 < inc) (k : ℤ) :
    delta_points_exact (t0 + k * inc) t0 inc = -k := by
  apply int_eq_of_abs_le_half
  have h := delta_points_exact_near (t0 + k * inc) t0 inc hinc
  have hx : (t0 - (t0 + k * inc)) / inc = -(k : ℚ) := by
    field_simp
  rw [hx] at h
  push_cast
  exact h

theorem delta_points_exact_reverse_le (t0 t1 inc : ℚ) (hinc : 0 < inc) (n : ℤ) (hn : 0 < n)
    (h : n ≤ delta_points_exact t0 t1 inc) : delta_points_exact t1 t0 inc ≤ -n := by
  apply delta_points_exact_le t1 t0 inc hinc n hn
  have hnear := delta_points_exact_near t0 t1 inc hinc
  rw [abs_le] at hnear
  have hq : (n : ℚ) ≤ delta_points_exact t0 t1 inc := by exact_mod_cast h
  have hx : (n : ℚ) - 1 / 2 ≤ (t1 - t0) / inc := by linarith
  exact (le_div_iff₀ hinc).mp hx

/-- C5, as stated, fails.  On `demo_cached` (populated at `t0 = 0`, `N = 4`,
`deltaSample = 1`, slot `0` holding `coord_func(-2)`), the call at `t1 = 5/4`
shifts the window by one slot to the anchor `1`; the call back at `t0 = 0` finds
`|last_orbitJD - t0| = deltaSample`, which is not stale, and leaves slot `0`
at `coord_func(-1)`, while a full recompute at `t0` holds `coord_func(-2)`.
The same happens on the fresh body `demo_new` fed the times `0, 5/4, 0`. -/
theorem time_reversal_counterexample :
    (demo_cached.orbit_cached, demo_cached.last_orbitJD, demo_cached.orbit 0)
        = (true, 0, ⟨-2, 0, 0⟩) ∧
      (feed 4 [5 / 4, 0] demo_cached).map (fun s => (s.last_orbitJD, s.orbit 0))
        = some (1, ⟨-1, 0, 0⟩) ∧
      (feed 4 [0, 5 / 4, 0] demo_new).map (fun s => (s.last_orbitJD, s.orbit 0))
        = some (1, ⟨-1, 0, 0⟩) ∧
      demo_cached.coord_func (calc_date 4 0 (demo_cached.re.sidereal_period / (4 : ℕ)) 0)
        = ⟨-2, 0, 0⟩ := by
  decide!

/-- C5, amended.  For a body whose parent is absent or is the root, with
`deltaSample > 0`, whose cache is populated and anchored at `t0`, and for every
later time `t1 > t0` with `t1 - t0 <= deltaSample` or
`3/2 * deltaSample <= t1 - t0 < (2^31 - 1/2) * deltaSample`,
`compute_position(t1)` followed by `compute_position(t0)` returns and restores
orbit samples equal to a full recompute at `t0`:
`orbit[d] = coord_func(t0 + (d - N/2) * deltaSample)`. -/
theorem time_reversal_restores (N : ℕ) (s : Planet) (t0 t1 : ℚ) (hp : s.helioLocal)
    (hδ : s.delta_orbitJD = s.re.sidereal_period / N) (hpos : 0 < s.delta_orbitJD)
    (hc : s.orbit_cached = true) (h0 : s.last_orbitJD = t0) (hinv : OrbitWindowInv N s)
    (hlt : t0 < t1)
    (hgap : t1 - t0 ≤ s.delta_orbitJD ∨
      (3 / 2 * s.delta_orbitJD ≤ t1 - t0 ∧ t1 - t0 < (2 ^ 31 - 1 / 2) * s.delta_orbitJD)) :
    ∃ s1 s2, compute_position N s t1 = some s1 ∧ compute_position N s1 t0 = some s2 ∧
      s2.last_orbitJD = t0 ∧
      ∀ d, d < N →
        s2.orbit d = s.coord_func (calc_date N t0 (s.re.sidereal_period / N) d) := by
  obtain ⟨s1, h1, hinv1, hc1, hl1, hpar1, hre1, hd1, hcf1⟩ :=
    compute_position_step N s t1 hp hδ hpos hinv
  have hp1 : s1.helioLocal := by
    intro p hp1
    rw [hpar1] at hp1
    exact hp p hp1
  have hδ1 : s1.delta_orbitJD = s1.re.sidereal_period / N := by rw [hd1, hre1]; exact hδ
  have hpos1 : 0 < s1.delta_orbitJD := by rw [hd1]; exact hpos
  obtain ⟨s2, h2, hinv2, hc2, hl2, _, hre2, _, hcf2⟩ :=
    compute_position_step N s1 t0 hp1 hδ1 hpos1 hinv1
  have hinc : 0 < s.re.sidereal_period / N := by rw [← hδ]; exact hpos
  have hanchor : s2.last_orbitJD = t0 := by
    rcases hgap with hsmall | hbig
    · have hns : ¬ orbit_stale s t1 := by
        rintro ⟨_, hgt | hf⟩
        · rw [h0, abs_sub_comm, abs_of_pos (by linarith)] at hgt
          exact absurd hsmall (not_le.mpr hgt)
        · rw [hc] at hf; exact absurd hf (by simp)
      rw [if_neg hns, h0] at hl1
      have hns1 : ¬ orbit_stale s1 t0 := by
        rintro ⟨_, hgt | hf⟩
        · rw [hl1, sub_self, abs_zero] at hgt
          exact absurd hpos1 (not_lt.mpr hgt.le)
        · rw [hc1] at hf; exact absurd hf (by simp)
      rw [if_neg hns1] at hl2
      rw [hl2, hl1]
    · obtain ⟨hbig, hrange⟩ := hbig
      rw [hδ] at hbig hrange
      have hst : orbit_stale s t1 := by
        refine ⟨hpos, Or.inl ?_⟩
        rw [h0, abs_sub_comm, abs_of_pos (by linarith), hδ]
        linarith
      rw [if_pos hst] at hl1
      have hr01 : shift_in_range t0 t1 (s.re.sidereal_period / N) := by
        unfold shift_in_range
        rw [abs_of_pos (by linarith)]
        exact hrange
      obtain ⟨E, hEdef⟩ :
          ∃ E : ℤ, E = delta_points_exact t0 t1 (s.re.sidereal_period / N) := ⟨_, rfl⟩
      have hex : shift_of N s t1 = E := by
        rw [hEdef]
        unfold shift_of
        rw [h0]
        exact delta_points_eq_exact t0 t1 _ hinc hr01
      have hEb : -2 ^ 31 < E ∧ E < 2 ^ 31 := by
        rw [hEdef]
        exact delta_points_exact_bound t0 t1 _ hinc hr01
      have hE2 : 2 ≤ E := by
        rw [hEdef]
        exact delta_points_exact_ge t0 t1 _ hinc 2 (by norm_num) (by push_cast; linarith)
      have hEq : (2 : ℚ) ≤ E := by exact_mod_cast hE2
      by_cases hsh : shiftable N s t1
      · have ha1 : s1.last_orbitJD = t0 + (E : ℚ) * (s.re.sidereal_period / N) := by
          rw [hl1, anchor_after, if_pos hsh, h0, hex]
        have hst1 : orbit_stale s1 t0 := by
          refine ⟨hpos1, Or.inl ?_⟩
          rw [ha1, hd1, hδ, add_sub_cancel_left,
            abs_of_pos (mul_pos (by linarith) hinc)]
          nlinarith
        have hEle : (E : ℚ) ≤ 2 ^ 31 - 1 := by
          have : E ≤ 2 ^ 31 - 1 := by omega
          exact_mod_cast this
        have hr10 : shift_in_range (t0 + (E : ℚ) * (s.re.sidereal_period / N)) t0
            (s.re.sidereal_period / N) := by
          unfold shift_in_range
          rw [sub_add_cancel_left, abs_neg, abs_of_pos (mul_pos (by linarith) hinc)]
          have := mul_le_mul_of_nonneg_right hEle hinc.le
          nlinarith
        have hdp1 : shift_of N s1 t0 = -E := by
          unfold shift_of
          rw [hre1, ha1, delta_points_eq_exact _ _ _ hinc hr10]
          exact delta_points_exact_grid t0 _ hinc _
        rw [if_pos hst1] at hl2
        rw [hl2]
        unfold anchor_after
        split_ifs
        · rw [hdp1, ha1, hre1]
          push_cast
          ring
        · rfl
      · have ha1 : s1.last_orbitJD = t1 := by
          rw [hl1, anchor_after, if_neg hsh]
        have hst1 : orbit_stale s1 t0 := by
          refine ⟨hpos1, Or.inl ?_⟩
          rw [ha1, hd1, hδ, abs_of_pos (by linarith)]
          linarith
        have hN : (N : ℤ) ≤ E := by
          by_contra hcon
          apply hsh
          refine ⟨hc, by rw [hex]; omega, ?_⟩
          rw [hex, int_abs_of_pos E (by omega)]
          omega
        have hNpos : (0 : ℤ) < N := by
          have := stale_N_pos N s t1 hδ hst
          exact_mod_cast this
        have hr10 : shift_in_range t1 t0 (s.re.sidereal_period / N) := by
          unfold shift_in_range
          rw [abs_sub_comm, abs_of_pos (by linarith)]
          exact hrange
        have hb1 := delta_points_exact_bound t1 t0 _ hinc hr10
        have hN2 : delta_points_exact t1 t0 (s.re.sidereal_period / N) ≤ -(N : ℤ) :=
          delta_points_exact_reverse_le t0 t1 _ hinc N hNpos (by rw [← hEdef]; exact hN)
        have hnsh1 : ¬ shiftable N s1 t0 := by
          rintro ⟨_, _, habs⟩
          unfold shift_of at habs
          rw [hre1, ha1, delta_points_eq_exact _ _ _ hinc hr10,
            int_abs_of_gt _ hb1.1, abs_lt] at habs
          omega
        rw [if_pos hst1] at hl2
        rw [hl2, anchor_after, if_neg hnsh1]
  refine ⟨s1, s2, h1, h2, hanchor, ?_⟩
  intro d hd
  have := hinv2 hc2 d hd
  rw [hanchor, hcf2, hcf1, hre2, hre1] at this
  exact this

theorem demo_cached_helioLocal : demo_cached.helioLocal := by
  intro p hp
  exact absurd hp (by simp [demo_cached, demo_new, set_rotation_elements, Planet.ctor])

theorem demo_cached_inv : OrbitWindowInv 4 demo_cached := by
  intro _ i hi
  have h1 : demo_cached.re.sidereal_period / ((4 : ℕ) : ℚ) = 1 := by
    norm_num [demo_cached, demo_new, set_rotation_elements, Planet.ctor]
  rw [h1]
  show (if i < 4 then demo_coord (calc_date 4 0 1 i) else (⟨0, 0, 0⟩ : Vec3d)) = _
  rw [if_pos hi]
  rfl

/-- C5 amended, on `demo_cached` with `t0 = 0` and `t1 = 3/2`. -/
theorem time_reversal_restores_witness :
    demo_cached.helioLocal ∧
    demo_cached.delta_orbitJD = demo_cached.re.sidereal_period / (4 : ℕ) ∧
    0 < demo_cached.delta_orbitJD ∧ demo_cached.orbit_cached = true ∧
    demo_cached.last_orbitJD = 0 ∧ OrbitWindowInv 4 demo_cached ∧ (0 : ℚ) < 3 / 2 ∧
    ((3 / 2 : ℚ) - 0 ≤ demo_cached.delta_orbitJD ∨
      (3 / 2 * demo_cached.delta_orbitJD ≤ 3 / 2 - 0 ∧
        (3 / 2 : ℚ) - 0 < (2 ^ 31 - 1 / 2) * demo_cached.delta_orbitJD)) ∧
    ∃ s1 s2, compute_position 4 demo_cached (3 / 2) = some s1 ∧
      compute_position 4 s1 0 = some s2 ∧ s2.last_orbitJD = 0 ∧
      ∀ d, d < 4 →
        s2.orbit d = demo_cached.coord_func
          (calc_date 4 0 (demo_cached.re.sidereal_period / (4 : ℕ)) d) :=
  ⟨demo_cached_helioLocal, demo_cached_delta, demo_cached_delta_pos, rfl, rfl,
    demo_cached_inv, by norm_num, by decide!,
    time_reversal_restores 4 demo_cached 0 (3 / 2) demo_cached_helioLocal demo_cached_delta
      demo_cached_delta_pos rfl rfl demo_cached_inv (by norm_num) (by decide!)⟩

/-! ## C7, C8, C9: the heliocentric position over the body tree -/

theorem wellNested_iff (s : Planet) :
    s.wellNested ↔ ¬ ∃ p q r, s.parent = some p ∧ p.parent = some q ∧ q.parent = some r := by
  unfold Planet.wellNested
  constructor
  · rintro h ⟨p, q, r, hp, hq, hr⟩
    rw [h p q hp hq] at hr
    exact absurd hr (by simp)
  · intro h p q hp hq
    cases hr : q.parent with
    | none => rfl
    | some r => exact absurd ⟨p, q, r, hp, hq, hr⟩ h

theorem helio_eq_none_iff (s : Planet) :
    get_heliocentric_ecliptic_pos s = none ↔ ¬ s.wellNested := by
  unfold get_heliocentric_ecliptic_pos
  rw [Option.map_eq_none', helioRun_eq_none_iff]

/-- C7. `get_heliocentric_ecliptic_pos` aborts (`exit(128)`) if and only if
the body has a great-grandparent (its parent has a non-null parent of parent).
In every other tree it returns after at most one execution of the loop body:
`ecliptic_pos` when the parent is absent or has no parent, and
`ecliptic_pos + parent.ecliptic_pos` when the parent itself has a parent. -/
theorem heliocentric_exact (s : Planet) :
    (get_heliocentric_ecliptic_pos s = none ↔
      ∃ p q r, s.parent = some p ∧ p.parent = some q ∧ q.parent = some r) ∧
    ((¬ ∃ p q r, s.parent = some p ∧ p.parent = some q ∧ q.parent = some r) →
      (∃ v n, helioRun s = some (v, n) ∧ n ≤ 1 ∧ get_heliocentric_ecliptic_pos s = some v) ∧
      (s.parent = none → get_heliocentric_ecliptic_pos s = some s.ecliptic_pos) ∧
      (∀ p, s.parent = some p → p.parent = none →
        get_heliocentric_ecliptic_pos s = some s.ecliptic_pos) ∧
      (∀ p q, s.parent = some p → p.parent = some q →
        get_heliocentric_ecliptic_pos s = some (s.ecliptic_pos + p.ecliptic_pos))) := by
  constructor
  · rw [helio_eq_none_iff, wellNested_iff, not_not]
  · intro h
    have hw : s.wellNested := (wellNested_iff s).mpr h
    have hv := helio_of_wellNested s hw
    obtain ⟨n, hn, hrun⟩ := helioRun_of_wellNested s hw
    refine ⟨⟨_, n, hrun, hn, hv⟩, ?_, ?_, ?_⟩
    · intro hp
      rw [hv, hp]; rfl
    · intro p hp hq
      rw [hv, hp]
      simp [helioOf, hq]
    · intro p q hp hq
      rw [hv, hp]
      simp [helioOf, hq]

/-- C8, as stated, fails.  For the root `demo_root` at `(1, 0, 0)` and its
child `demo_child` at `(0, 1, 0)` the loop is not entered (the parent has no
parent) and the result is the child's own `(0, 1, 0)`, not the sum
`(1, 1, 0)`. -/
theorem frame_composition_counterexample :
    demo_root.parent = none ∧ demo_child.parent = some demo_root ∧
      get_heliocentric_ecliptic_pos demo_child = some ⟨0, 1, 0⟩ ∧
      demo_root.ecliptic_pos + demo_child.ecliptic_pos = ⟨1, 1, 0⟩ ∧
      get_heliocentric_ecliptic_pos demo_child
        ≠ some (demo_root.ecliptic_pos + demo_child.ecliptic_pos) := by
  refine ⟨rfl, rfl, by decide!, by decide!, by decide!⟩

/-- C8, amended.  For every root (no parent) and every child whose parent is
that root, and for every pair of local positions,
`get_heliocentric_ecliptic_pos(child) = child.ecliptic_pos`: the root's local
position is not added.  The result equals
`root.ecliptic_pos + child.ecliptic_pos` exactly when `root.ecliptic_pos` is
the zero vector. -/
theorem frame_composition_root_child (root child : Planet) (hr : root.parent = none)
    (hc : child.parent = some root) :
    get_heliocentric_ecliptic_pos child = some child.ecliptic_pos ∧
    (get_heliocentric_ecliptic_pos child = some (root.ecliptic_pos + child.ecliptic_pos) ↔
      root.ecliptic_pos = ⟨0, 0, 0⟩) := by
  have hl : child.helioLocal := by
    intro p hp
    rw [hc] at hp
    simp only [Option.some.injEq] at hp
    rw [← hp]; exact hr
  have hv : get_heliocentric_ecliptic_pos child = some child.ecliptic_pos := by
    rw [helio_of_wellNested child (helioLocal_wellNested child hl),
      helioOf_of_helioLocal child hl]
  refine ⟨hv, ?_⟩
  rw [hv, Option.some.injEq]
  obtain ⟨rx, ry, rz⟩ := root.ecliptic_pos
  obtain ⟨cx, cy, cz⟩ := child.ecliptic_pos
  show (⟨cx, cy, cz⟩ : Vec3d) = ⟨rx + cx, ry + cy, rz + cz⟩ ↔ _
  simp only [Vec3d.mk.injEq]
  constructor
  · rintro ⟨h1, h2, h3⟩
    exact ⟨by linarith, by linarith, by linarith⟩
  · rintro ⟨h1, h2, h3⟩
    subst h1 h2 h3
    simp

/-- C8 amended, on `demo_root` and `demo_child`. -/
theorem frame_composition_root_child_witness :
    demo_root.parent = none ∧ demo_child.parent = some demo_root ∧
    (get_heliocentric_ecliptic_pos demo_child = some demo_child.ecliptic_pos ∧
    (get_heliocentric_ecliptic_pos demo_child
        = some (demo_root.ecliptic_pos + demo_child.ecliptic_pos) ↔
      demo_root.ecliptic_pos = ⟨0, 0, 0⟩)) :=
  ⟨rfl, rfl, frame_composition_root_child demo_root demo_child rfl rfl⟩

/-- C9, as stated, fails.  `demo_grandchild` has a parent (`demo_child`) whose
parent (`demo_root`) is non-null, and the call returns the numeric position
`ecliptic_pos + parent.ecliptic_pos = (0, 1, 1)` instead of aborting. -/
theorem disallowed_nesting_counterexample :
    demo_grandchild.parent = some demo_child ∧ demo_child.parent = some demo_root ∧
      get_heliocentric_ecliptic_pos demo_grandchild = some ⟨0, 1, 1⟩ := by
  refine ⟨rfl, rfl, by decide!⟩

/-- C9, amended.  For every body whose parent's parent's parent is non-null
(the body has a great-grandparent), `get_heliocentric_ecliptic_pos` aborts
with the fatal configuration error and returns no position. -/
theorem disallowed_nesting_aborts (s p q r : Planet) (hp : s.parent = some p)
    (hq : p.parent = some q) (hr : q.parent = some r) :
    get_heliocentric_ecliptic_pos s = none := by
  rw [helio_eq_none_iff, wellNested_iff, not_not]
  exact ⟨p, q, r, hp, hq, hr⟩

/-- C9 amended, on the four-level chain ending in `demo_great`. -/
theorem disallowed_nesting_aborts_witness :
    demo_great.parent = some demo_grandchild ∧ demo_grandchild.parent = some demo_child ∧
    demo_child.parent = some demo_root ∧ get_heliocentric_ecliptic_pos demo_great = none :=
  ⟨rfl, rfl, rfl,
    disallowed_nesting_aborts demo_great demo_grandchild demo_child demo_root rfl rfl rfl⟩

/-! ## C10: the trail never holds more than `MaxTrail` points -/

theorem trail_prune_length_le (date DeltaTrail : ℚ) (MaxTrail : ℤ) (l : List TrailPoint) :
    (trail_prune date DeltaTrail MaxTrail l).length ≤ l.length := by
  induction l with
  | nil => simp [trail_prune]
  | cons tp rest ih =>
    unfold trail_prune
    split_ifs
    · simp
    · simp only [List.length_cons]; omega

theorem update_trail_count (s s1 : Planet) (nav : Navigator) (h : update_trail s nav = some s1)
    (hM : s.MaxTrail = 60) (hl : s.trail.length ≤ 60) :
    s1.MaxTrail = 60 ∧ s1.trail.length ≤ 60 := by
  unfold update_trail at h
  by_cases hon : s.trail_on = false
  · rw [if_pos hon] at h
    simp only [Option.some.injEq] at h
    subst h
    exact ⟨hM, hl⟩
  · rw [if_neg hon] at h
    simp only [Option.map_eq_some'] at h
    obtain ⟨s2, hpush, rfl⟩ := h
    suffices hs2 : s2.MaxTrail = 60 ∧ s2.trail.length ≤ 60 by
      refine ⟨hs2.1, ?_⟩
      exact le_trans (trail_prune_length_le _ _ _ _) hs2.2
    revert hpush
    generalize hreset : (s.first_point ||
      decide ((if s.first_point = true then (0 : ℤ)
        else int_abs (toInt32 ((nav.JDay - s.last_trailJD) / s.DeltaTrail))) > s.MaxTrail))
      = reset
    generalize (if s.first_point = true then (0 : ℤ)
        else int_abs (toInt32 ((nav.JDay - s.last_trailJD) / s.DeltaTrail))) = dt0
    intro hpush
    have hs1 : ∀ sr : Planet,
        sr = (if reset = true then { s with trail := [], first_point := false } else s) →
        sr.MaxTrail = 60 ∧ sr.trail.length ≤ 60 := by
      intro sr hsr
      cases reset with
      | true => simp only [if_true] at hsr; subst hsr; exact ⟨hM, by simp⟩
      | false => simp only [Bool.false_eq_true, if_false] at hsr; subst hsr; exact ⟨hM, hl⟩
    generalize hsr : (if reset = true then { s with trail := [], first_point := false } else s)
      = sr at hpush
    obtain ⟨hMr, hlr⟩ := hs1 sr hsr.symm
    generalize (if reset = true then (1 : ℤ) else dt0) = dt at hpush
    by_cases hdt : dt ≠ 0
    · rw [if_pos hdt] at hpush
      simp only [Option.map_eq_some'] at hpush
      obtain ⟨v, _, rfl⟩ := hpush
      refine ⟨hMr, ?_⟩
      show (if ((({ point := nav.helio_to_earth_pos_equ v, date := nav.JDay } : TrailPoint)
          :: sr.trail).length : ℤ) > sr.MaxTrail % 2 ^ 32
        then (({ point := nav.helio_to_earth_pos_equ v, date := nav.JDay } : TrailPoint)
          :: sr.trail).dropLast
        else ({ point := nav.helio_to_earth_pos_equ v, date := nav.JDay } : TrailPoint)
          :: sr.trail).length ≤ 60
      rw [hMr]
      split_ifs with hgt
      · simp only [List.length_dropLast, List.length_cons]
        omega
      · simp only [List.length_cons] at hgt ⊢
        push_cast at hgt
        omega
    · rw [if_neg hdt] at hpush
      simp only [Option.some.injEq] at hpush
      subst hpush
      exact ⟨hMr, hlr⟩

theorem startTrail_count (s : Planet) (b : Bool) :
    (startTrail s b).MaxTrail = s.MaxTrail ∧ (startTrail s b).trail = s.trail := by
  unfold startTrail
  cases b with
  | false => exact ⟨rfl, rfl⟩
  | true =>
    simp only [if_true]
    split_ifs <;> exact ⟨rfl, rfl⟩

theorem reachable_trail_count (N : ℕ) (J2000 JD_SECOND : ℚ) (s : Planet)
    (h : Reachable N J2000 JD_SECOND s) : s.MaxTrail = 60 ∧ s.trail.length ≤ 60 := by
  induction h with
  | ctor parent coord_func sp0 dJD0 orbit0 => exact ⟨rfl, by simp [Planet.ctor]⟩
  | set_rotation_elements s a b c d e f g _ ih => exact ih
  | compute_position s s1 date _ hc ih =>
    obtain ⟨e, o, l, c, j, rfl⟩ := compute_position_frame N s s1 date hc
    exact ih
  | startTrail s b _ ih =>
    obtain ⟨h1, h2⟩ := startTrail_count s b
    rw [h1, h2]
    exact ih
  | update_trail s s1 nav _ hu ih => exact update_trail_count s s1 nav hu ih.1 ih.2
  | ancestors s p0 p _ _ ih => exact ih

theorem demo_trailed_eq :
    update_trail (startTrail demo_new true) demo_nav = some demo_trailed := by
  have h : (update_trail (startTrail demo_new true) demo_nav).isSome = true := by decide!
  obtain ⟨x, hx⟩ := Option.isSome_iff_exists.mp h
  simp [demo_trailed, hx]

theorem demo_trailed_reachable : Reachable 4 2451545 (1 / 86400) demo_trailed :=
  Reachable.update_trail _ _ demo_nav
    (Reachable.startTrail _ true
      (Reachable.set_rotation_elements _ 1 0 2451545 0 0 0 4
        (Reachable.ctor none demo_coord 0 0 (fun _ => ⟨0, 0, 0⟩))))
    demo_trailed_eq

/-- C10. In every state reachable from construction by calls of `startTrail`
and `update_trail` at arbitrary times (also interleaved with
`set_rotation_elements`, `compute_position` and updates of the ancestors), the
trail holds at most `MaxTrail = 60` points. -/
theorem trail_count_bound (N : ℕ) (J2000 JD_SECOND : ℚ) (s : Planet)
    (h : Reachable N J2000 JD_SECOND s) :
    s.MaxTrail = 60 ∧ (s.trail.length : ℤ) ≤ s.MaxTrail := by
  obtain ⟨hM, hl⟩ := reachable_trail_count N J2000 JD_SECOND s h
  refine ⟨hM, ?_⟩
  rw [hM]
  exact_mod_cast hl

/-- C10 on `demo_trailed`, which holds one point. -/
theorem trail_count_bound_witness :
    Reachable 4 2451545 (1 / 86400) demo_trailed ∧ demo_trailed.trail.length = 1 ∧
    (demo_trailed.MaxTrail = 60 ∧ (demo_trailed.trail.length : ℤ) ≤ demo_trailed.MaxTrail) :=
  ⟨demo_trailed_reachable, by decide!,
    trail_count_bound 4 2451545 (1 / 86400) demo_trailed demo_trailed_reachable⟩

/-! ## C14: the rounding rule of the window shift -/

theorem delta_points_exact_eq_round (last date inc : ℚ) (hinc : 0 < inc) :
    delta_points_exact last date inc = round_half_away ((date - last) / inc) := by
  unfold round_half_away
  by_cases h : date > last
  · have hx : 0 < (date - last) / inc := div_pos (by linarith) hinc
    rw [delta_points_exact_forward last date inc hinc h, if_pos hx.le, add_comm]
  · have hle : date ≤ last := not_lt.mp h
    have hx : (date - last) / inc ≤ 0 := div_nonpos_of_nonpos_of_nonneg (by linarith) hinc.le
    rw [delta_points_exact_backward last date inc hinc hle]
    by_cases h0 : 0 ≤ (date - last) / inc
    · have hz : (date - last) / inc = 0 := le_antisymm hx h0
      rw [if_pos h0, hz]
      norm_num
    · rw [if_neg h0]
      congr 1
      ring

theorem delta_points_exact_tie (last date inc : ℚ) (hinc : 0 < inc)
    (h : |(delta_points_exact last date inc : ℚ) - (date - last) / inc| = 1 / 2) :
    |(date - last) / inc| < |(delta_points_exact last date inc : ℚ)| := by
  by_cases hgt : date > last
  · have hx : 0 < (date - last) / inc := div_pos (by linarith) hinc
    rw [delta_points_exact_forward last date inc hinc hgt] at h ⊢
    have h2 := Int.lt_floor_add_one (1 / 2 + (date - last) / inc)
    have h3 : ((⌊1 / 2 + (date - last) / inc⌋ : ℤ) : ℚ) - (date - last) / inc = 1 / 2 := by
      rcases abs_eq (by norm_num : (0 : ℚ) ≤ 1 / 2) |>.mp h with h4 | h4
      · exact h4
      · linarith
    rw [abs_of_pos hx, abs_of_pos (by linarith)]
    linarith
  · have hle : date ≤ last := not_lt.mp hgt
    have hx : (date - last) / inc ≤ 0 := div_nonpos_of_nonpos_of_nonneg (by linarith) hinc.le
    rw [delta_points_exact_backward last date inc hinc hle] at h ⊢
    have h2 := Int.ceil_lt_add_one (-(1 / 2) + (date - last) / inc)
    have h3 : ((⌈-(1 / 2) + (date - last) / inc⌉ : ℤ) : ℚ) - (date - last) / inc = -(1 / 2) := by
      rcases abs_eq (by norm_num : (0 : ℚ) ≤ 1 / 2) |>.mp h with h4 | h4
      · linarith
      · exact h4
    rw [abs_of_nonpos hx, abs_of_neg (by linarith)]
    linarith

theorem delta_points_exact_ne_zero (last date inc : ℚ) (hinc : 0 < inc)
    (hgt : |last - date| > inc) : delta_points_exact last date inc ≠ 0 := by
  rcases lt_or_le (last - date) 0 with hneg | hnn
  · rw [abs_of_neg hneg] at hgt
    have := delta_points_exact_ge last date inc hinc 1 one_pos (by push_cast; linarith)
    omega
  · rw [abs_of_nonneg hnn] at hgt
    have := delta_points_exact_le last date inc hinc 1 one_pos (by push_cast; linarith)
    omega

/-- The rounding rule inside the range of `int`.  For
`delta_orbitJD = sidereal_period / ORBIT_SEGMENTS > 0`,
`x = (date - last_orbitJD) / delta_orbitJD` and
`|date - last_orbitJD| < (2^31 - 1/2) * delta_orbitJD`, the shift `delta_points`
computed by `compute_position` is `floor(x + 1/2)` when `date > last_orbitJD`
and `ceil(x - 1/2)` otherwise, which is the integer nearest to `x` with ties
resolved away from zero; hence `|delta_points - x| <= 1/2`, the re-anchored time
`new_date = last_orbitJD + delta_points * delta_orbitJD` satisfies
`|new_date - date| <= delta_orbitJD / 2`, and `delta_points` is non-zero
whenever `|last_orbitJD - date| > delta_orbitJD`. -/
theorem shift_rounding_rule_in_range (N : ℕ) (s : Planet) (date : ℚ)
    (hδ : s.delta_orbitJD = s.re.sidereal_period / N) (hpos : 0 < s.delta_orbitJD)
    (hr : cast_ok N s date) :
    (date > s.last_orbitJD →
      shift_of N s date = ⌊(date - s.last_orbitJD) / s.delta_orbitJD + 1 / 2⌋) ∧
    (¬ date > s.last_orbitJD →
      shift_of N s date = ⌈(date - s.last_orbitJD) / s.delta_orbitJD - 1 / 2⌉) ∧
    shift_of N s date = round_half_away ((date - s.last_orbitJD) / s.delta_orbitJD) ∧
    |(shift_of N s date : ℚ) - (date - s.last_orbitJD) / s.delta_orbitJD| ≤ 1 / 2 ∧
    (|(shift_of N s date : ℚ) - (date - s.last_orbitJD) / s.delta_orbitJD| = 1 / 2 →
      |(date - s.last_orbitJD) / s.delta_orbitJD| < |(shift_of N s date : ℚ)|) ∧
    |s.last_orbitJD + (shift_of N s date : ℚ) * s.delta_orbitJD - date|
      ≤ s.delta_orbitJD / 2 ∧
    (|s.last_orbitJD - date| > s.delta_orbitJD → shift_of N s date ≠ 0) := by
  rw [shift_of_eq_exact N s date (by rw [← hδ]; exact hpos) hr, ← hδ]
  refine ⟨fun h => ?_, fun h => ?_, delta_points_exact_eq_round _ _ _ hpos,
    delta_points_exact_near _ _ _ hpos, delta_points_exact_tie _ _ _ hpos,
    exact_new_date_near _ _ _ hpos, delta_points_exact_ne_zero _ _ _ hpos⟩
  · rw [delta_points_exact_forward _ _ _ hpos h, add_comm]
  · rw [delta_points_exact_backward _ _ _ hpos (not_lt.mp h)]
    congr 1
    ring

/-- The in-range rounding rule on `demo_cached` at date `5/2`: the tie `x = 5/2`
is rounded to `3`. -/
theorem shift_rounding_rule_in_range_witness :
    demo_cached.delta_orbitJD = demo_cached.re.sidereal_period / (4 : ℕ) ∧
    0 < demo_cached.delta_orbitJD ∧ cast_ok 4 demo_cached (5 / 2) ∧
    shift_of 4 demo_cached (5 / 2) = 3 ∧
    ((5 / 2 > demo_cached.last_orbitJD →
      shift_of 4 demo_cached (5 / 2)
        = ⌊(5 / 2 - demo_cached.last_orbitJD) / demo_cached.delta_orbitJD + 1 / 2⌋) ∧
    (¬ 5 / 2 > demo_cached.last_orbitJD →
      shift_of 4 demo_cached (5 / 2)
        = ⌈(5 / 2 - demo_cached.last_orbitJD) / demo_cached.delta_orbitJD - 1 / 2⌉) ∧
    shift_of 4 demo_cached (5 / 2)
      = round_half_away ((5 / 2 - demo_cached.last_orbitJD) / demo_cached.delta_orbitJD) ∧
    |(shift_of 4 demo_cached (5 / 2) : ℚ)
      - (5 / 2 - demo_cached.last_orbitJD) / demo_cached.delta_orbitJD| ≤ 1 / 2 ∧
    (|(shift_of 4 demo_cached (5 / 2) : ℚ)
        - (5 / 2 - demo_cached.last_orbitJD) / demo_cached.delta_orbitJD| = 1 / 2 →
      |(5 / 2 - demo_cached.last_orbitJD) / demo_cached.delta_orbitJD|
        < |(shift_of 4 demo_cached (5 / 2) : ℚ)|) ∧
    |demo_cached.last_orbitJD + (shift_of 4 demo_cached (5 / 2) : ℚ) * demo_cached.delta_orbitJD
        - 5 / 2| ≤ demo_cached.delta_orbitJD / 2 ∧
    (|demo_cached.last_orbitJD - 5 / 2| > demo_cached.delta_orbitJD →
      shift_of 4 demo_cached (5 / 2) ≠ 0)) :=
  ⟨demo_cached_delta, demo_cached_delta_pos, by decide!, by decide!,
    shift_rounding_rule_in_range 4 demo_cached (5 / 2) demo_cached_delta demo_cached_delta_pos
      (by decide!)⟩

/-- C14 fails on the code.  On `demo_cached` (`delta_orbitJD = 1`,
`last_orbitJD = 0`) and the date `3000000000`, `x = 3000000000` is itself the
nearest integer, but it does not fit the 32-bit `int` `delta_points`: the cast
yields `INT_MIN = -2147483648`.  Then `|delta_points - x| > 1/2` and
`new_date = -2147483648` is further than `delta_orbitJD / 2` from the date.
The fresh body `demo_new` is in the same position after `compute_position(0)`. -/
theorem shift_rounding_overflow :
    demo_cached.delta_orbitJD = demo_cached.re.sidereal_period / (4 : ℕ) ∧
      0 < demo_cached.delta_orbitJD ∧
      (3000000000 - demo_cached.last_orbitJD) / demo_cached.delta_orbitJD = 3000000000 ∧
      round_half_away ((3000000000 - demo_cached.last_orbitJD) / demo_cached.delta_orbitJD)
        = 3000000000 ∧
      shift_of 4 demo_cached 3000000000 = -2147483648 ∧
      (feed 4 [0] demo_new).map
          (fun s => (s.last_orbitJD, s.delta_orbitJD, shift_of 4 s 3000000000))
        = some (0, 1, -2147483648) ∧
      ¬ |(shift_of 4 demo_cached 3000000000 : ℚ)
          - (3000000000 - demo_cached.last_orbitJD) / demo_cached.delta_orbitJD| ≤ 1 / 2 ∧
      ¬ |demo_cached.last_orbitJD
          + (shift_of 4 demo_cached 3000000000 : ℚ) * demo_cached.delta_orbitJD - 3000000000|
          ≤ demo_cached.delta_orbitJD / 2 := by
  decide!

/-! ## C11: the age bound of the trail -/

theorem trail_prune_bound (date DeltaTrail : ℚ) (MaxTrail : ℤ) (l : List TrailPoint) :
    ∀ tp, tp ∈ trail_prune date DeltaTrail MaxTrail l →
      |tp.date - date| / DeltaTrail ≤ MaxTrail := by
  induction l with
  | nil => intro tp h; simp [trail_prune] at h
  | cons a rest ih =>
    intro tp h
    unfold trail_prune at h
    split_ifs at h with hold
    · simp at h
    · rcases List.mem_cons.mp h with rfl | hr
      · exact not_lt.mp hold
      · exact ih tp hr

theorem trail_prune_sublist (date DeltaTrail : ℚ) (MaxTrail : ℤ) (l : List TrailPoint) :
    (trail_prune date DeltaTrail MaxTrail l).Sublist l := by
  induction l with
  | nil => simp [trail_prune]
  | cons a rest ih =>
    unfold trail_prune
    split_ifs
    · exact List.nil_sublist _
    · exact ih.cons₂ a

/-- The effect of `update_trail` on an enabled trail: the three ways the list
handed to the final scan is formed. -/
theorem update_trail_shape (s s1 : Planet) (nav : Navigator) (hon : s.trail_on = true)
    (h : update_trail s nav = some s1) :
    ∃ base lj fp,
      s1 = { s with trail := trail_prune nav.JDay s.DeltaTrail s.MaxTrail base,
                    last_trailJD := lj, first_point := fp } ∧
      (((s.first_point = true ∨ trail_dt s nav > s.MaxTrail) ∧ lj = nav.JDay ∧
          ∃ v, base.Sublist [({ point := v, date := nav.JDay } : TrailPoint)]) ∨
        (s.first_point = false ∧ trail_dt s nav ≤ s.MaxTrail ∧ trail_dt s nav ≠ 0 ∧
          lj = nav.JDay ∧
          ∃ v, base = [] ∨ ∃ rest, rest.Sublist s.trail ∧
            base = ({ point := v, date := nav.JDay } : TrailPoint) :: rest) ∨
        (trail_dt s nav = 0 ∧ lj = s.last_trailJD ∧ base = s.trail)) := by
  unfold update_trail at h
  rw [if_neg (by rw [hon]; simp)] at h
  simp only [Option.map_eq_some'] at h
  obtain ⟨s2, hpush, rfl⟩ := h
  have hcap : ∀ (tr : List TrailPoint) (M : ℤ),
      (if (tr.length : ℤ) > M % 2 ^ 32 then tr.dropLast else tr).Sublist tr := by
    intro tr M
    split_ifs
    · exact List.dropLast_sublist tr
    · exact List.Sublist.refl tr
  have hcap2 : ∀ (a : TrailPoint) (tr : List TrailPoint) (M : ℤ),
      (if ((a :: tr).length : ℤ) > M % 2 ^ 32 then (a :: tr).dropLast else a :: tr) = [] ∨
      ∃ rest, rest.Sublist tr ∧
        (if ((a :: tr).length : ℤ) > M % 2 ^ 32 then (a :: tr).dropLast else a :: tr)
          = a :: rest := by
    intro a tr M
    split_ifs
    · cases tr with
      | nil => exact Or.inl rfl
      | cons b t => exact Or.inr ⟨(b :: t).dropLast, List.dropLast_sublist _, rfl⟩
    · exact Or.inr ⟨tr, List.Sublist.refl tr, rfl⟩
  cases hfp : s.first_point with
  | true =>
    simp only [hfp, if_true, Bool.true_or, ne_eq, one_ne_zero, not_false_eq_true,
      Option.map_eq_some'] at hpush
    obtain ⟨v, _, rfl⟩ := hpush
    exact ⟨_, nav.JDay, false, rfl,
      Or.inl ⟨Or.inl rfl, rfl, nav.helio_to_earth_pos_equ v, hcap _ _⟩⟩
  | false =>
    simp only [hfp, Bool.false_eq_true, if_false, Bool.false_or] at hpush
    have hticks : int_abs (toInt32 ((nav.JDay - s.last_trailJD) / s.DeltaTrail))
        = trail_dt s nav := rfl
    rw [hticks] at hpush
    by_cases hgt : trail_dt s nav > s.MaxTrail
    · simp only [hgt, decide_True, if_true, ne_eq, one_ne_zero, not_false_eq_true,
        Option.map_eq_some'] at hpush
      obtain ⟨v, _, rfl⟩ := hpush
      exact ⟨_, nav.JDay, false, rfl,
        Or.inl ⟨Or.inr hgt, rfl, nav.helio_to_earth_pos_equ v, hcap _ _⟩⟩
    · simp only [hgt, decide_False, Bool.false_eq_true, if_false] at hpush
      by_cases hz : trail_dt s nav ≠ 0
      · rw [if_pos hz] at hpush
        simp only [Option.map_eq_some'] at hpush
        obtain ⟨v, _, rfl⟩ := hpush
        exact ⟨_, nav.JDay, false, by rw [← hfp],
          Or.inr (Or.inl ⟨rfl, not_lt.mp hgt, hz, rfl, nav.helio_to_earth_pos_equ v,
            hcap2 _ _ _⟩)⟩
      · rw [if_neg hz] at hpush
        simp only [Option.some.injEq] at hpush
        subst hpush
        exact ⟨s.trail, s.last_trailJD, false, by rw [← hfp],
          Or.inr (Or.inr ⟨not_not.mp hz, rfl, rfl⟩)⟩

theorem update_trail_total (s : Planet) (nav : Navigator) (hw : s.wellNested) :
    ∃ s1, update_trail s nav = some s1 := by
  have ha := helio_of_wellNested s hw
  have hb := helio_of_wellNested { s with trail := [], first_point := false } hw
  unfold update_trail
  simp only
  split_ifs <;>
    first
    | exact ⟨_, rfl⟩
    | (rw [ha]; exact ⟨_, rfl⟩)
    | (rw [hb]; exact ⟨_, rfl⟩)

/-- C11. With the trail enabled, `update_trail` at time `date` returns on every
body without a great-grandparent, and whenever it returns every point left in
the trail satisfies `|point.date - date| / DeltaTrail <= MaxTrail`, whatever the
prior trail content, the order of its dates and the number of points. -/
theorem trail_age_bound (s : Planet) (nav : Navigator) (hon : s.trail_on = true) :
    (s.wellNested → ∃ s1, update_trail s nav = some s1) ∧
    ∀ s1, update_trail s nav = some s1 →
      ∀ tp, tp ∈ s1.trail → |tp.date - nav.JDay| / s1.DeltaTrail ≤ s1.MaxTrail := by
  refine ⟨update_trail_total s nav, ?_⟩
  intro s1 h tp htp
  obtain ⟨base, lj, fp, rfl, _⟩ := update_trail_shape s s1 nav hon h
  exact trail_prune_bound _ _ _ base tp htp

/-- C11 on the fresh body `demo_new` after `startTrail(true)`, updated at day `10`. -/
theorem trail_age_bound_witness :
    (startTrail demo_new true).trail_on = true ∧
    ((startTrail demo_new true).wellNested →
      ∃ s1, update_trail (startTrail demo_new true) demo_nav = some s1) ∧
    ∀ s1, update_trail (startTrail demo_new true) demo_nav = some s1 →
      ∀ tp, tp ∈ s1.trail → |tp.date - demo_nav.JDay| / s1.DeltaTrail ≤ s1.MaxTrail :=
  ⟨by decide!, trail_age_bound (startTrail demo_new true) demo_nav (by decide!)⟩

/-! ## C12: the order of the trail -/

theorem startTrail_trail (s : Planet) (b : Bool) :
    (startTrail s b).trail = s.trail ∧ (startTrail s b).last_trailJD = s.last_trailJD ∧
    (startTrail s b).DeltaTrail = s.DeltaTrail ∧ (startTrail s b).MaxTrail = s.MaxTrail := by
  unfold startTrail
  cases b with
  | false => exact ⟨rfl, rfl, rfl, rfl⟩
  | true =>
    simp only [if_true]
    split_ifs <;> exact ⟨rfl, rfl, rfl, rfl⟩

theorem abs_toInt_le (x : ℚ) : |(toInt x : ℚ)| ≤ |x| := by
  unfold toInt
  split_ifs with h
  · have h1 := Int.floor_le x
    have h2 : (0 : ℚ) ≤ ⌊x⌋ := by exact_mod_cast Int.floor_nonneg.mpr h
    rw [abs_of_nonneg h2, abs_of_nonneg h]
    exact h1
  · have hx : x < 0 := not_le.mp h
    have h1 := Int.le_ceil x
    have h2 : ((⌈x⌉ : ℤ) : ℚ) ≤ 0 := by
      have : ⌈x⌉ ≤ 0 := Int.ceil_le.mpr (by push_cast; exact hx.le)
      exact_mod_cast this
    rw [abs_of_nonpos h2, abs_of_neg hx]
    linarith

theorem trail_dt_cases (s : Planet) (nav : Navigator) :
    trail_dt s nav = trail_ticks s nav ∨
      (trail_dt s nav = -2 ^ 31 ∧ 2 ^ 31 ≤ trail_ticks s nav) := by
  unfold trail_dt trail_ticks toInt32 int_abs
  generalize toInt ((nav.JDay - s.last_trailJD) / s.DeltaTrail) = t
  by_cases h1 : -2 ^ 31 ≤ t ∧ t < 2 ^ 31
  · rw [if_pos h1]
    by_cases h2 : t = -2 ^ 31
    · right
      rw [if_pos h2, h2]
      norm_num
    · left
      rw [if_neg h2]
  · right
    rw [if_neg h1]
    refine ⟨by norm_num, ?_⟩
    rw [not_and_or, not_le, not_lt] at h1
    rcases h1 with h | h
    · rw [abs_of_neg (by linarith)]
      linarith
    · rw [abs_of_nonneg (by linarith)]
      exact h

theorem trail_prune_eq_nil (date DeltaTrail : ℚ) (MaxTrail : ℤ) (l : List TrailPoint)
    (h : ∀ tp, tp ∈ l → |tp.date - date| / DeltaTrail > MaxTrail) :
    trail_prune date DeltaTrail MaxTrail l = [] := by
  cases l with
  | nil => rfl
  | cons a rest =>
    unfold trail_prune
    rw [if_pos (h a (List.mem_cons_self a rest))]

/-- What is left after a reset or an out-of-range push is at most the new point. -/
theorem pruned_single (s : Planet) (nav : Navigator) (v : Vec3d) (pruned : List TrailPoint)
    (fp : Bool) (hD : s.DeltaTrail = 1) (hM : s.MaxTrail = 60)
    (hs : pruned.Sublist [({ point := v, date := nav.JDay } : TrailPoint)]) :
    TrailInv { s with trail := pruned, last_trailJD := nav.JDay, first_point := fp } := by
  have hmem : ∀ tp, tp ∈ pruned → tp.date = nav.JDay := by
    intro tp htp
    have := hs.subset htp
    simp only [List.mem_singleton] at this
    rw [this]
  refine ⟨List.Pairwise.sublist hs (List.pairwise_singleton _ _), ?_, ?_, hD, hM⟩
  · intro tp htp
    exact le_of_eq (hmem tp htp)
  · intro tp htp
    show |tp.date - nav.JDay| ≤ 60
    rw [hmem tp htp, sub_self, abs_zero]
    norm_num

theorem update_trail_ordered (s s1 : Planet) (nav : Navigator)
    (h : update_trail s nav = some s1) (hok : ¬ backward_push s nav)
    (hinv : TrailInv s) : TrailInv s1 := by
  obtain ⟨hord, hle, hnear, hD, hM⟩ := hinv
  cases hon : s.trail_on with
  | false =>
    unfold update_trail at h
    rw [if_pos hon] at h
    simp only [Option.some.injEq] at h
    subst h
    exact ⟨hord, hle, hnear, hD, hM⟩
  | true =>
    obtain ⟨base, lj, fp, rfl, hcase⟩ := update_trail_shape s s1 nav hon h
    have hsub := trail_prune_sublist nav.JDay s.DeltaTrail s.MaxTrail base
    have hbound := trail_prune_bound nav.JDay s.DeltaTrail s.MaxTrail base
    have hb60 : ∀ tp, tp ∈ trail_prune nav.JDay s.DeltaTrail s.MaxTrail base →
        |tp.date - nav.JDay| ≤ 60 := by
      intro tp htp
      have := hbound tp htp
      rw [hD, hM, div_one] at this
      exact_mod_cast this
    rcases hcase with ⟨_, rfl, v, hb⟩ | ⟨hfp, hmax, hnz, rfl, v, hb⟩ | ⟨_, rfl, rfl⟩
    · exact pruned_single s nav v _ fp hD hM (hsub.trans hb)
    · rcases trail_dt_cases s nav with hdt | ⟨hdt, hbig⟩
      · rw [hdt] at hmax hnz
        have hfwd : s.last_trailJD ≤ nav.JDay := by
          by_contra hcon
          exact hok ⟨hon, hfp, not_le.mp hcon, hnz, hmax⟩
        have hs : (trail_prune nav.JDay s.DeltaTrail s.MaxTrail base).Sublist
            (({ point := v, date := nav.JDay } : TrailPoint) :: s.trail) := by
          rcases hb with rfl | ⟨rest, hrest, rfl⟩
          · exact hsub.trans (List.nil_sublist _)
          · exact hsub.trans (hrest.cons₂ _)
        refine ⟨List.Pairwise.sublist hs ?_, ?_, hb60, hD, hM⟩
        · rw [List.pairwise_cons]
          exact ⟨fun tp htp => le_trans (hle tp htp) hfwd, hord⟩
        · intro tp htp
          rcases List.mem_cons.mp (hs.subset htp) with rfl | hm
          · exact le_refl _
          · exact le_trans (hle tp hm) hfwd
      · have hjump : (2 : ℚ) ^ 31 ≤ |nav.JDay - s.last_trailJD| := by
          have h1 := abs_toInt_le ((nav.JDay - s.last_trailJD) / s.DeltaTrail)
          rw [hD, div_one] at h1
          have h2 : ((2 ^ 31 : ℤ) : ℚ) ≤ ((trail_ticks s nav : ℤ) : ℚ) := by
            exact_mod_cast hbig
          unfold trail_ticks at h2
          rw [hD, div_one] at h2
          push_cast at h2
          linarith
        have hs : (trail_prune nav.JDay s.DeltaTrail s.MaxTrail base).Sublist
            [({ point := v, date := nav.JDay } : TrailPoint)] := by
          rcases hb with rfl | ⟨rest, hrest, rfl⟩
          · exact hsub.trans (List.nil_sublist _)
          · have hnil : trail_prune nav.JDay s.DeltaTrail s.MaxTrail rest = [] := by
              apply trail_prune_eq_nil
              intro tp htp
              have h60 := hnear tp (hrest.subset htp)
              rw [hD, hM, div_one]
              have hsplit : |nav.JDay - s.last_trailJD|
                  ≤ |nav.JDay - tp.date| + |tp.date - s.last_trailJD| := by
                have := abs_add (nav.JDay - tp.date) (tp.date - s.last_trailJD)
                rwa [sub_add_sub_cancel] at this
              rw [abs_sub_comm nav.JDay tp.date] at hsplit
              push_cast
              have : (2 : ℚ) ^ 31 = 2147483648 := by norm_num
              linarith
            unfold trail_prune
            split_ifs
            · exact List.nil_sublist _
            · rw [hnil]
        exact pruned_single s nav v _ fp hD hM hs
    · exact ⟨List.Pairwise.sublist hsub hord, fun tp htp => hle tp (hsub.subset htp),
        fun tp htp => hnear tp (hsub.subset htp), hD, hM⟩

theorem reachable_ordered (N : ℕ) (J2000 JD_SECOND : ℚ) (s : Planet)
    (h : ReachableOrdered N J2000 JD_SECOND s) : TrailInv s := by
  induction h with
  | ctor parent coord_func sp0 dJD0 orbit0 =>
    exact ⟨by simp [TrailOrdered, Planet.ctor], by simp [Planet.ctor],
      by simp [Planet.ctor], rfl, rfl⟩
  | set_rotation_elements s a b c d e f g _ ih => exact ih
  | compute_position s s1 date _ hc ih =>
    obtain ⟨e, o, l, c, j, rfl⟩ := compute_position_frame N s s1 date hc
    exact ih
  | startTrail s b _ ih =>
    obtain ⟨h1, h2, h3, h4⟩ := startTrail_trail s b
    unfold TrailInv TrailOrdered at ih ⊢
    rw [h1, h2, h3, h4]
    exact ih
  | update_trail s s1 nav _ hok hu ih => exact update_trail_ordered s s1 nav hu hok ih
  | ancestors s p0 p _ _ ih => exact ih

theorem demo_backtracked_eq :
    update_trail demo_trailed demo_nav_back = some demo_backtracked := by
  have h : (update_trail demo_trailed demo_nav_back).isSome = true := by decide!
  obtain ⟨x, hx⟩ := Option.isSome_iff_exists.mp h
  simp [demo_backtracked, hx]

theorem demo_advanced_eq :
    update_trail demo_trailed demo_nav_on = some demo_advanced := by
  have h : (update_trail demo_trailed demo_nav_on).isSome = true := by decide!
  obtain ⟨x, hx⟩ := Option.isSome_iff_exists.mp h
  simp [demo_advanced, hx]

theorem demo_advanced_reachable : ReachableOrdered 4 2451545 (1 / 86400) demo_advanced :=
  ReachableOrdered.update_trail _ _ demo_nav_on
    (ReachableOrdered.update_trail _ _ demo_nav
      (ReachableOrdered.startTrail _ true
        (ReachableOrdered.set_rotation_elements _ 1 0 2451545 0 0 0 4
          (ReachableOrdered.ctor none demo_coord 0 0 (fun _ => ⟨0, 0, 0⟩))))
      (by decide!) demo_trailed_eq)
    (by decide!) demo_advanced_eq

/-- C12, as stated, fails.  The fresh body `demo_new` after `startTrail(true)`,
`update_trail` at day `10` and `update_trail` at day `8` (time moved back by two
ticks, `dt = 2`) holds the trail dates `8, 10` from front to back: the new
point is pushed to the front although it is older. -/
theorem trail_ordering_counterexample :
    Reachable 4 2451545 (1 / 86400) demo_backtracked ∧
      demo_backtracked.trail.map (fun tp => tp.date) = [8, 10] ∧
      ¬ TrailOrdered demo_backtracked :=
  ⟨Reachable.update_trail _ _ demo_nav_back
      (Reachable.update_trail _ _ demo_nav
        (Reachable.startTrail _ true
          (Reachable.set_rotation_elements _ 1 0 2451545 0 0 0 4
            (Reachable.ctor none demo_coord 0 0 (fun _ => ⟨0, 0, 0⟩))))
        demo_trailed_eq)
      demo_backtracked_eq,
    by decide!, by decide!⟩

/-- C12, amended.  In every state reachable from construction by any sequence of
`startTrail` and `update_trail` calls (also interleaved with
`set_rotation_elements`, `compute_position` and updates of the ancestors) in
which no `update_trail` call pushes, on a running trail, a point dated earlier
than `last_trailJD` (time never steps back by between one and `MaxTrail`
ticks; forward motion, backward steps of less than one tick and jumps of more
than `MaxTrail` ticks are allowed), the trail is time-ordered
most-recent-first: the dates of its points are non-increasing from front to
back. -/
theorem trail_ordering_forward (N : ℕ) (J2000 JD_SECOND : ℚ) (s : Planet)
    (h : ReachableOrdered N J2000 JD_SECOND s) : TrailOrdered s :=
  (reachable_ordered N J2000 JD_SECOND s h).1

/-- C12 amended, on `demo_advanced`: updates at days `10` and `12`. -/
theorem trail_ordering_forward_witness :
    ReachableOrdered 4 2451545 (1 / 86400) demo_advanced ∧
    demo_advanced.trail.map (fun tp => tp.date) = [12, 10] ∧ TrailOrdered demo_advanced :=
  ⟨demo_advanced_reachable, by decide!,
    trail_ordering_forward 4 2451545 (1 / 86400) demo_advanced demo_advanced_reachable⟩

/-! ## C13: the magnitude sentinel -/

/-- C13. For every observer position, every albedo and radius and every
library `sqrt`, `acosf`, `log10f` with `sqrt 0 = 0`: if the body's heliocentric
position is the origin (so `R = 0 < 1e-16`), `compute_magnitude` returns exactly
the constant `-26.73`, through the guard and without evaluating the photometric
formula (no division, `acosf` or `log10f`). -/
theorem magnitude_sentinel (m : FloatOps) (albedo radius : ℚ) (s : Planet) (obs_pos : Vec3d)
    (hsqrt : m.sqrt 0 = 0) (h0 : get_heliocentric_ecliptic_pos s = some ⟨0, 0, 0⟩) :
    magnitude_run m albedo radius s obs_pos = some (-(2673 / 100), false) ∧
    compute_magnitude m albedo radius s obs_pos = some (-(2673 / 100)) := by
  have hr : magnitude_run m albedo radius s obs_pos = some (-(2673 / 100), false) := by
    unfold magnitude_run
    rw [h0]
    simp [magnitude_of, Vec3d.length, hsqrt]
  exact ⟨hr, by rw [compute_magnitude, hr]; rfl⟩

/-- C13 on the fresh root body `demo_new` (at the origin) seen from the origin. -/
theorem magnitude_sentinel_witness :
    demo_ops.sqrt 0 = 0 ∧ get_heliocentric_ecliptic_pos demo_new = some ⟨0, 0, 0⟩ ∧
    (magnitude_run demo_ops 1 1 demo_new ⟨0, 0, 0⟩ = some (-(2673 / 100), false) ∧
    compute_magnitude demo_ops 1 1 demo_new ⟨0, 0, 0⟩ = some (-(2673 / 100))) :=
  ⟨by simp [demo_ops], by decide!,
    magnitude_sentinel demo_ops 1 1 demo_new ⟨0, 0, 0⟩ (by simp [demo_ops]) (by decide!)⟩

end Stellarium
